import Mathlib

/-!
# Verification of the `dynamodb` client package

A shallow embedding, in Lean 4, of the groupme/dynamodb Go package: the
retrying transport (`Client.CallBytes` / `Client.backoff` / `Client.do`),
the error classification (`Error.Info` / `Error.Retry`), credential
construction (`Auth`), the table handle constructor (`Client.Table`), the
`dynamodb-marshal` code generator's overwrite behaviour (`parseFile`), and
the generated codec for the tool's `Model` struct (`Model.Encode`,
`Model.Decode`, `toJSON`), together with theorems settling the spec's
claims about them.

Go strings and byte slices are modelled as `List Nat` of byte values;
machine integers as `Int`/`Nat` (Go `int`/`int64` values always lie in the
signed 64-bit range, which appears as an explicit hypothesis where it
matters); pointer identity is modelled by allocation counters.  Calls to
the Go standard library (JSON parsing, base64, decimal formatting, UTF-8
decoding) are modelled by executable Lean functions mirroring the
library's documented behaviour.
-/

/-! ## Error classification (`Error`, `Error.Info`, `Error.Retry`)

`Error` holds the raw body of a non-200 response and its status code.
`Error.Info` JSON-decodes the body into a `map[string]string` and then
post-processes the `__type` value.  The JSON decoding itself is Go
standard library code; we model its *result* as an optional association
list (`none` when the body is `nil` or does not decode), and transcribe
the post-processing exactly: the kind token is cut after the first `#`
only when that `#` sits at a positive index (`idx > 0` in the source). -/

structure DDBError where
  body : Option (List (String × String))
  statusCode : Int
  deriving DecidableEq, Repr

/-- Model of `strings.Index(s, "#")`: byte index of the first `#`, `-1` if
absent.  Since `#` is ASCII, the byte index is positive iff the character
index is, and the suffix after it is the same either way, so the
character-level model is faithful. -/
def goIndexHash (s : String) : Int :=
  match s.data.findIdx? (fun c => c = '#') with
  | some i => (i : Int)
  | none => -1

/-- Model of the Go slice `s[n:]` (drop the first `n` characters). -/
def goDrop (s : String) (n : Nat) : String :=
  String.mk (s.data.drop n)

/-- The `__type` post-processing inside `Error.Info`: cut the text after
the first `#` when that `#` sits at a positive index. -/
def infoType (errtype : String) : String :=
  if goIndexHash errtype > 0 then goDrop errtype ((goIndexHash errtype).toNat + 1) else errtype

/-- `Error.Info`: extract the error kind and message from the decoded body. -/
def DDBError.info (e : DDBError) : String × String :=
  match e.body with
  | none => ("", "")
  | some m => (infoType ((m.lookup "__type").getD ""), (m.lookup "message").getD "")

/-- `Error.Retry`: the kind is one of the three transient error kinds. -/
def DDBError.retry (e : DDBError) : Bool :=
  if e.info.1 = "InternalServerError" then true
  else if e.info.1 = "ProvisionedThroughputExceededException" then true
  else if e.info.1 = "ServiceUnavailableException" then true
  else false

/-- The spec's reading of the kind token: the text after a `#` separator
whenever one is present (the code, by contrast, requires `idx > 0`). -/
def specKind (t : String) : String :=
  match t.data.findIdx? (fun c => c = '#') with
  | some i => String.mk (t.data.drop (i + 1))
  | none => t

/-! ## The retry loop (`Client.CallBytes`, `Client.backoff`, `Client.do`)

One logical call is modelled by the sequence of outcomes the underlying
`callRaw` attempts would produce (`Outcome`), a retry budget (`Client.Retry`,
an `Int`: `-1` means `RetryForever`), and an optional instant at which the
caller's context is cancelled.  Time advances in discrete steps: step `2k`
is the `k`-th request (`Client.do`), step `2k+1` the backoff sleep after
it.  `ctx.Done` is modelled as closed from step `cancelAt` on.  Faithful
to the source:

* `Client.do` races the request against `ctx.Done()` and yields
  `ctx.Err()` when the context is already cancelled — but the request has
  already been launched, so the invocation is counted;
* `Client.backoff` is a bare `<-time.After(...)`: it does *not* observe
  the context, so a sleep always completes in full;
* `CallBytes` increments `attempt` *before* comparing with `c.Retry` and
  before calling `c.backoff(attempt)`. -/

inductive Outcome where
  /-- `callRaw` returned a 200 body. -/
  | ok (body : List Nat)
  /-- `callRaw` returned a `dynamodb.Error` (non-200 status). -/
  | remote (e : DDBError)
  /-- `callRaw` failed with a transport-level (non-`Error`) error. -/
  | transport
  deriving DecidableEq, Repr

inductive CallResult where
  /-- bytes returned to the caller. -/
  | success (body : List Nat)
  /-- `ErrRetryExhausted`. -/
  | exhausted
  /-- the `dynamodb.Error` itself, returned unchanged. -/
  | fatal (e : DDBError)
  /-- a transport-level error, returned unchanged. -/
  | failed
  /-- `ctx.Err()`. -/
  | cancelled
  deriving DecidableEq, Repr

/-- The `Retry` constants of the package. -/
def RetryDefault : Int := 5

def RetryForever : Int := -1

def RetryNever : Int := 0

/-- `backoffFactor = 50 * time.Millisecond`; `backoff(attempt)` sleeps
`2^attempt * backoffFactor`.  Durations are in milliseconds. -/
def backoffMs (attempt : Nat) : Nat := 2 ^ attempt * 50

/-- Is the shared cancellation signal ready at `step`? -/
def ctxDone : Option Nat → Nat → Bool
  | some t, step => t ≤ step
  | none, _ => false

/-- The `CallBytes` loop.  Returns `none` if the outcome trace is shorter
than the number of attempts the loop makes; otherwise the result, the
list of backoff sleep durations in order, and the number of requests
launched. -/
def callBytesCtx (retry : Int) (cancelAt : Option Nat) :
    Nat → Nat → Nat → List Outcome → Option (CallResult × List Nat × Nat)
  | step, attempt, dos, outs =>
    if ctxDone cancelAt step then some (.cancelled, [], dos + 1)
    else
      match outs with
      | [] => none
      | o :: rest =>
        match o with
        | .ok b => some (.success b, [], dos + 1)
        | .transport => some (.failed, [], dos + 1)
        | .remote e =>
          if e.retry then
            if (attempt + 1 : Int) ≥ retry then some (.exhausted, [], dos + 1)
            else
              match callBytesCtx retry cancelAt (step + 2) (attempt + 1) (dos + 1) rest with
              | some (res, sleeps, d) => some (res, backoffMs (attempt + 1) :: sleeps, d)
              | none => none
          else some (.fatal e, [], dos + 1)

/-- `CallBytes` without cancellation: the loop as run to completion. -/
def callBytes (retry : Int) (outs : List Outcome) : Option (CallResult × List Nat × Nat) :=
  callBytesCtx retry none 0 0 0 outs

/-! ## Credentials (`Auth`) -/

structure auth where
  accessKey : String
  secretKey : List Char
  deriving DecidableEq, Repr

/-- `Auth`: the stored key material is the bytes of `"AWS4" + secretKey`. -/
def Auth (accessKey secretKey : String) : auth :=
  { accessKey := accessKey
    secretKey := "AWS4".data ++ secretKey.data }

/-! ## Table handles (`Client.Table`)

The package declares `var tables map[string]*Table` and never assigns to
it anywhere (verified over every file of the package), so it stays the
nil map and every lookup yields `nil`.  Pointers are modelled by
allocation counters: the second component of `clientTable`'s result is
the next fresh allocation id. -/

structure Table where
  client : Nat
  name : String
  deriving DecidableEq, Repr

/-- The package-level `tables` variable: declared, never written. -/
def tables : List (String × Nat × Table) := []

/-- `Client.Table`: return the memoized handle if the map has one,
otherwise allocate a fresh `Table{client: c, name: name}`. -/
def clientTable (c : Nat) (name : String) (ctr : Nat) : (Nat × Table) × Nat :=
  match tables.lookup name with
  | some t => (t, ctr)
  | none => ((ctr, ⟨c, name⟩), ctr + 1)

/-! ## The generator's overwrite behaviour (`parseFile` in dynamodb-marshal)

`parseFile` stats the target `_marshal.go` path; when it exists and
`--force` was not given it logs `"... already exists! please specify
--force to overwrite"` — and then falls through to `os.Create` and
`Write` regardless.  The model records the sequence of externally visible
effects. -/

inductive FileAction where
  | logParsing
  | logAlreadyExists
  | logWriting
  | createFile
  | writeGenerated
  deriving DecidableEq, Repr

/-- The effects of `parseFile(path, force)`, given whether the generated
output file already exists. -/
def parseFile (outputExists force : Bool) : List FileAction :=
  [.logParsing]
    ++ (if outputExists && !force then [.logAlreadyExists] else [])
    ++ [.logWriting, .createFile, .writeGenerated]

/-! base64 (model of encoding/base64 StdEncoding) -/

def b64Char (n : Nat) : Nat :=
  if n < 26 then 65 + n
  else if n < 52 then 97 + (n - 26)
  else if n < 62 then 48 + (n - 52)
  else if n = 62 then 43
  else 47

def b64Val (c : Nat) : Option Nat :=
  if 65 ≤ c ∧ c ≤ 90 then some (c - 65)
  else if 97 ≤ c ∧ c ≤ 122 then some (c - 97 + 26)
  else if 48 ≤ c ∧ c ≤ 57 then some (c - 48 + 52)
  else if c = 43 then some 62
  else if c = 47 then some 63
  else none

def base64Encode : List Nat → List Nat
  | b0 :: b1 :: b2 :: rest =>
    b64Char (b0 / 4) :: b64Char (b0 % 4 * 16 + b1 / 16) ::
      b64Char (b1 % 16 * 4 + b2 / 64) :: b64Char (b2 % 64) :: base64Encode rest
  | [b0, b1] => [b64Char (b0 / 4), b64Char (b0 % 4 * 16 + b1 / 16), b64Char (b1 % 16 * 4), 61]
  | [b0] => [b64Char (b0 / 4), b64Char (b0 % 4 * 16), 61, 61]
  | [] => []

def base64Decode : List Nat → List Nat
  | c0 :: c1 :: c2 :: c3 :: rest =>
    (match b64Val c0, b64Val c1 with
     | some v0, some v1 =>
       if c2 = 61 then [v0 * 4 + v1 / 16]
       else
         (match b64Val c2 with
          | some v2 =>
            if c3 = 61 then [v0 * 4 + v1 / 16, v1 % 16 * 16 + v2 / 4]
            else
              (match b64Val c3 with
               | some v3 =>
                 (v0 * 4 + v1 / 16) :: (v1 % 16 * 16 + v2 / 4) ::
                   (v2 % 4 * 64 + v3) :: base64Decode rest
               | none => [])
          | none => [])
     | _, _ => [])
  | _ => []

theorem b64Val_b64Char : ∀ v : Fin 64, b64Val (b64Char v.val) = some v.val := by decide

theorem b64Char_ne_61 (v : Nat) : b64Char v ≠ 61 := by
  unfold b64Char
  split_ifs <;> omega

theorem base64_roundtrip (s : List Nat) (h : ∀ b ∈ s, b < 256) :
    base64Decode (base64Encode s) = s := by
  induction s using base64Encode.induct with
  | case1 b0 b1 b2 rest ih =>
    have h0 : b0 < 256 := h b0 (by simp)
    have h1 : b1 < 256 := h b1 (by simp)
    have h2 : b2 < 256 := h b2 (by simp)
    have e0 : b64Val (b64Char (b0 / 4)) = some (b0 / 4) := b64Val_b64Char ⟨b0 / 4, by omega⟩
    have e1 : b64Val (b64Char (b0 % 4 * 16 + b1 / 16)) = some (b0 % 4 * 16 + b1 / 16) :=
      b64Val_b64Char ⟨b0 % 4 * 16 + b1 / 16, by omega⟩
    have e2 : b64Val (b64Char (b1 % 16 * 4 + b2 / 64)) = some (b1 % 16 * 4 + b2 / 64) :=
      b64Val_b64Char ⟨b1 % 16 * 4 + b2 / 64, by omega⟩
    have e3 : b64Val (b64Char (b2 % 64)) = some (b2 % 64) := b64Val_b64Char ⟨b2 % 64, by omega⟩
    have r0 : b0 / 4 * 4 + (b0 % 4 * 16 + b1 / 16) / 16 = b0 := by omega
    have r1 : (b0 % 4 * 16 + b1 / 16) % 16 * 16 + (b1 % 16 * 4 + b2 / 64) / 4 = b1 := by omega
    have r2 : (b1 % 16 * 4 + b2 / 64) % 4 * 64 + b2 % 64 = b2 := by omega
    rw [base64Encode, base64Decode]
    simp only [e0, e1, e2, e3]
    simp [b64Char_ne_61, r0, r1, r2, ih (fun b hb => h b (by simp [hb]))]
  | case2 b0 b1 =>
    have h0 : b0 < 256 := h b0 (by simp)
    have h1 : b1 < 256 := h b1 (by simp)
    have e0 : b64Val (b64Char (b0 / 4)) = some (b0 / 4) := b64Val_b64Char ⟨b0 / 4, by omega⟩
    have e1 : b64Val (b64Char (b0 % 4 * 16 + b1 / 16)) = some (b0 % 4 * 16 + b1 / 16) :=
      b64Val_b64Char ⟨b0 % 4 * 16 + b1 / 16, by omega⟩
    have e2 : b64Val (b64Char (b1 % 16 * 4)) = some (b1 % 16 * 4) :=
      b64Val_b64Char ⟨b1 % 16 * 4, by omega⟩
    have r0 : b0 / 4 * 4 + (b0 % 4 * 16 + b1 / 16) / 16 = b0 := by omega
    have r1 : (b0 % 4 * 16 + b1 / 16) % 16 * 16 + b1 % 16 * 4 / 4 = b1 := by omega
    rw [base64Encode, base64Decode]
    simp only [e0, e1, e2]
    simp [b64Char_ne_61, r0, r1]
    omega
  | case3 b0 =>
    have h0 : b0 < 256 := h b0 (by simp)
    have e0 : b64Val (b64Char (b0 / 4)) = some (b0 / 4) := b64Val_b64Char ⟨b0 / 4, by omega⟩
    have e1 : b64Val (b64Char (b0 % 4 * 16)) = some (b0 % 4 * 16) :=
      b64Val_b64Char ⟨b0 % 4 * 16, by omega⟩
    have r0 : b0 / 4 * 4 + b0 % 4 * 16 / 16 = b0 := by omega
    rw [base64Encode, base64Decode]
    simp only [e0, e1]
    simp [r0]
    omega
  | case4 => simp [base64Encode, base64Decode]

/-! decimal (model of strconv.FormatInt / strconv.ParseInt, base 10, bitSize 64) -/

def natToDigits (n : Nat) : List Nat :=
  if n < 10 then [48 + n] else natToDigits (n / 10) ++ [48 + n % 10]
termination_by n
decreasing_by omega

def formatInt (i : Int) : List Nat :=
  if i < 0 then 45 :: natToDigits (-i).toNat else natToDigits i.toNat

def parseUDecAux : List Nat → Nat → Option Nat
  | [], acc => some acc
  | c :: t, acc => if 48 ≤ c ∧ c ≤ 57 then parseUDecAux t (acc * 10 + (c - 48)) else none

def parseUDec (s : List Nat) : Option Nat :=
  if s = [] then none else parseUDecAux s 0

def clampPos (o : Option Nat) : Int :=
  match o with
  | some n => if n ≤ 2 ^ 63 - 1 then (n : Int) else ((2 ^ 63 - 1 : Nat) : Int)
  | none => 0

def clampNeg (o : Option Nat) : Int :=
  match o with
  | some n => if n ≤ 2 ^ 63 then -(n : Int) else -(2 ^ 63 : Int)
  | none => 0

def goParseInt (s : List Nat) : Int :=
  match s with
  | [] => 0
  | c :: rest =>
    if c = 45 then clampNeg (parseUDec rest)
    else if c = 43 then clampPos (parseUDec rest)
    else clampPos (parseUDec (c :: rest))

theorem natToDigits_ne_nil (n : Nat) : natToDigits n ≠ [] := by
  rw [natToDigits]
  split_ifs <;> simp

theorem natToDigits_digits (n : Nat) : ∀ c ∈ natToDigits n, 48 ≤ c ∧ c ≤ 57 := by
  induction n using natToDigits.induct with
  | case1 n hlt =>
    rw [natToDigits, if_pos hlt]
    intro c hc
    simp at hc
    omega
  | case2 n hlt ih =>
    rw [natToDigits, if_neg hlt]
    intro c hc
    rcases List.mem_append.1 hc with hc | hc
    · exact ih c hc
    · simp at hc
      omega

theorem parseUDecAux_digits (n : Nat) (l2 : List Nat) (v : Nat) :
    parseUDecAux (natToDigits n ++ l2) v =
      parseUDecAux l2 (v * 10 ^ (natToDigits n).length + n) := by
  induction n using natToDigits.induct generalizing l2 v with
  | case1 n hlt =>
    rw [natToDigits, if_pos hlt]
    simp only [List.singleton_append, parseUDecAux]
    rw [if_pos (by omega : 48 ≤ 48 + n ∧ 48 + n ≤ 57)]
    congr 1
    simp
  | case2 n hlt ih =>
    rw [natToDigits, if_neg hlt, List.append_assoc, ih]
    have hstep : parseUDecAux ([48 + n % 10] ++ l2)
        (v * 10 ^ (natToDigits (n / 10)).length + n / 10) =
        parseUDecAux l2
          ((v * 10 ^ (natToDigits (n / 10)).length + n / 10) * 10 + (48 + n % 10 - 48)) := by
      simp only [List.singleton_append, parseUDecAux]
      rw [if_pos (by omega : 48 ≤ 48 + n % 10 ∧ 48 + n % 10 ≤ 57)]
      simp
    rw [hstep]
    congr 1
    rw [List.length_append]
    simp only [List.length_singleton]
    rw [pow_succ, ← mul_assoc]
    have hmod := Nat.div_add_mod n 10
    set w := v * 10 ^ (natToDigits (n / 10)).length
    omega

theorem parseUDec_natToDigits (n : Nat) : parseUDec (natToDigits n) = some n := by
  have h := parseUDecAux_digits n [] 0
  rw [List.append_nil] at h
  rw [parseUDec, if_neg (natToDigits_ne_nil n), h]
  simp [parseUDecAux]

theorem natToDigits_head (n : Nat) : ∃ c t, natToDigits n = c :: t ∧ 48 ≤ c ∧ c ≤ 57 := by
  obtain ⟨c, t, h⟩ : ∃ c t, natToDigits n = c :: t := by
    cases hh : natToDigits n with
    | nil => exact absurd hh (natToDigits_ne_nil n)
    | cons c t => exact ⟨c, t, rfl⟩
  refine ⟨c, t, h, ?_⟩
  have := natToDigits_digits n c (by rw [h]; simp)
  omega

theorem goParseInt_formatInt (i : Int) (hlo : -(2 ^ 63) ≤ i) (hhi : i ≤ 2 ^ 63 - 1) :
    goParseInt (formatInt i) = i := by
  by_cases hneg : i < 0
  · rw [formatInt, if_pos hneg, goParseInt, if_pos rfl, parseUDec_natToDigits]
    have hle : (-i).toNat ≤ 2 ^ 63 := by omega
    simp only [clampNeg]
    rw [if_pos hle]
    omega
  · rw [formatInt, if_neg hneg]
    obtain ⟨c, t, hct, hc1, hc2⟩ := natToDigits_head i.toNat
    rw [hct, goParseInt]
    have h45 : ¬ c = 45 := by omega
    have h43 : ¬ c = 43 := by omega
    rw [if_neg h45, if_neg h43, ← hct, parseUDec_natToDigits]
    have hle : i.toNat ≤ 2 ^ 63 - 1 := by omega
    simp only [clampPos]
    rw [if_pos hle]
    omega

/-! UTF-8 handling shared with toJSON (copied from test1 context for now) -/

def cont (b : Nat) : Bool := decide (0x80 ≤ b ∧ b ≤ 0xBF)

def valid2 (b0 b1 : Nat) : Bool := decide (0xC2 ≤ b0 ∧ b0 ≤ 0xDF) && cont b1

def valid3 (b0 b1 b2 : Nat) : Bool :=
  decide (0xE0 ≤ b0 ∧ b0 ≤ 0xEF) &&
  (if b0 = 0xE0 then decide (0xA0 ≤ b1 ∧ b1 ≤ 0xBF)
   else if b0 = 0xED then decide (0x80 ≤ b1 ∧ b1 ≤ 0x9F)
   else cont b1) && cont b2

def valid4 (b0 b1 b2 b3 : Nat) : Bool :=
  decide (0xF0 ≤ b0 ∧ b0 ≤ 0xF4) &&
  (if b0 = 0xF0 then decide (0x90 ≤ b1 ∧ b1 ≤ 0xBF)
   else if b0 = 0xF4 then decide (0x80 ≤ b1 ∧ b1 ≤ 0x8F)
   else cont b1) && cont b2 && cont b3

def replChar : List Nat := [0xEF, 0xBF, 0xBD]

def sanitize : List Nat → List Nat
  | [] => []
  | b :: t =>
    if b < 0x80 then b :: sanitize t
    else match t with
      | [] => replChar
      | b1 :: t1 =>
        if valid2 b b1 then b :: b1 :: sanitize t1
        else match t1 with
          | [] => replChar ++ sanitize [b1]
          | b2 :: t2 =>
            if valid3 b b1 b2 then b :: b1 :: b2 :: sanitize t2
            else match t2 with
              | [] => replChar ++ sanitize [b1, b2]
              | b3 :: t3 =>
                if valid4 b b1 b2 b3 then b :: b1 :: b2 :: b3 :: sanitize t3
                else replChar ++ sanitize (b1 :: b2 :: b3 :: t3)
termination_by l => l.length
decreasing_by all_goals (simp only [List.length_cons]; omega)

def validUTF8 : List Nat → Bool
  | [] => true
  | b :: t =>
    if b < 0x80 then validUTF8 t
    else match t with
      | [] => false
      | b1 :: t1 =>
        if valid2 b b1 then validUTF8 t1
        else match t1 with
          | [] => false
          | b2 :: t2 =>
            if valid3 b b1 b2 then validUTF8 t2
            else match t2 with
              | [] => false
              | b3 :: t3 =>
                if valid4 b b1 b2 b3 then validUTF8 t3
                else false
termination_by l => l.length
decreasing_by all_goals (simp only [List.length_cons]; omega)

theorem sanitize_valid (s : List Nat) (h : validUTF8 s = true) : sanitize s = s := by
  induction s using sanitize.induct with
  | case1 => rw [sanitize]
  | case2 b t hlt ih =>
    rw [validUTF8.eq_def] at h
    simp only [if_pos hlt] at h
    rw [sanitize.eq_def]
    simp only [if_pos hlt, ih h]
  | case3 b hlt =>
    rw [validUTF8.eq_def] at h
    simp [hlt] at h
  | case4 b hlt b1 t hv ih =>
    rw [validUTF8.eq_def] at h
    simp only [if_neg hlt] at h
    simp only [hv, if_true, if_pos] at h
    rw [sanitize.eq_def]
    simp [hlt, hv, ih h]
  | case5 b hlt b1 hv ih =>
    rw [validUTF8.eq_def] at h
    simp [hlt, hv] at h
  | case6 b hlt b1 hv2 b2 t hv3 ih =>
    rw [validUTF8.eq_def] at h
    simp [hlt, hv2, hv3] at h
    rw [sanitize.eq_def]
    simp [hlt, hv2, hv3, ih h]
  | case7 b hlt b1 hv2 b2 hv3 ih =>
    rw [validUTF8.eq_def] at h
    simp [hlt, hv2, hv3] at h
  | case8 b hlt b1 hv2 b2 hv3 b3 t hv4 ih =>
    rw [validUTF8.eq_def] at h
    simp [hlt, hv2, hv3, hv4] at h
    rw [sanitize.eq_def]
    simp [hlt, hv2, hv3, hv4, ih h]
  | case9 b hlt b1 hv2 b2 hv3 b3 t hv4 ih =>
    rw [validUTF8.eq_def] at h
    simp [hlt, hv2, hv3, hv4] at h

/-! toJSON (copied from the C6 development) -/

def hexDig (n : Nat) : Nat := if n < 10 then 48 + n else 87 + n

def escByte (b : Nat) : List Nat :=
  if b = 92 ∨ b = 34 then [92, b]
  else if b = 10 then [92, 110]
  else if b = 13 then [92, 114]
  else [92, 117, 48, 48, hexDig (b / 16), hexDig (b % 16)]

def replBytes : List Nat := [92, 117, 102, 102, 102, 100]

def asciiSafe (b : Nat) : Bool :=
  decide (0x20 ≤ b ∧ b ≠ 92 ∧ b ≠ 34 ∧ b ≠ 60 ∧ b ≠ 62 ∧ b ≠ 38)

def toJSON : List Nat → List Nat
  | [] => []
  | b :: t =>
    if b < 0x80 then (if asciiSafe b then [b] else escByte b) ++ toJSON t
    else match t with
      | [] => replBytes
      | b1 :: t1 =>
        if valid2 b b1 then b :: b1 :: toJSON t1
        else match t1 with
          | [] => replBytes ++ toJSON [b1]
          | b2 :: t2 =>
            if valid3 b b1 b2 then b :: b1 :: b2 :: toJSON t2
            else match t2 with
              | [] => replBytes ++ toJSON [b1, b2]
              | b3 :: t3 =>
                if valid4 b b1 b2 b3 then b :: b1 :: b2 :: b3 :: toJSON t3
                else replBytes ++ toJSON (b1 :: b2 :: b3 :: t3)
termination_by l => l.length
decreasing_by all_goals (simp only [List.length_cons]; omega)

/-! JSON string unescaping (model of encoding/json's string decoding) -/

def hexVal (c : Nat) : Option Nat :=
  if 48 ≤ c ∧ c ≤ 57 then some (c - 48)
  else if 97 ≤ c ∧ c ≤ 102 then some (c - 97 + 10)
  else if 65 ≤ c ∧ c ≤ 70 then some (c - 65 + 10)
  else none

def fixSurrogate (v : Nat) : Nat := if 0xD800 ≤ v ∧ v < 0xE000 then 0xFFFD else v

def utf8Enc (v : Nat) : List Nat :=
  if v < 0x80 then [v]
  else if v < 0x800 then [0xC0 + v / 64, 0x80 + v % 64]
  else [0xE0 + v / 4096, 0x80 + v / 64 % 64, 0x80 + v % 64]

def unescapeJSON : List Nat → Option (List Nat)
  | [] => some []
  | b :: t =>
    if b = 92 then
      match t with
      | [] => none
      | e :: t' =>
        if e = 34 then (unescapeJSON t').map (34 :: ·)
        else if e = 92 then (unescapeJSON t').map (92 :: ·)
        else if e = 47 then (unescapeJSON t').map (47 :: ·)
        else if e = 98 then (unescapeJSON t').map (8 :: ·)
        else if e = 102 then (unescapeJSON t').map (12 :: ·)
        else if e = 110 then (unescapeJSON t').map (10 :: ·)
        else if e = 114 then (unescapeJSON t').map (13 :: ·)
        else if e = 116 then (unescapeJSON t').map (9 :: ·)
        else if e = 117 then
          match t' with
          | h1 :: h2 :: h3 :: h4 :: t2 =>
            (match hexVal h1, hexVal h2, hexVal h3, hexVal h4 with
             | some v1, some v2, some v3, some v4 =>
               (unescapeJSON t2).map
                 (fun l => utf8Enc (fixSurrogate (v1 * 4096 + v2 * 256 + v3 * 16 + v4)) ++ l)
             | _, _, _, _ => none)
          | _ => none
        else none
    else (unescapeJSON t).map (b :: ·)

theorem unescapeJSON_cons_safe (b : Nat) (t : List Nat) (h : ¬ b = 92) :
    unescapeJSON (b :: t) = (unescapeJSON t).map (b :: ·) := by
  rw [unescapeJSON.eq_def]
  simp [h]

theorem unescapeJSON_append_safe (x : List Nat) (l : List Nat) (h : ∀ b ∈ x, ¬ b = 92) :
    unescapeJSON (x ++ l) = (unescapeJSON l).map (x ++ ·) := by
  induction x with
  | nil => simp
  | cons b x' ih =>
    rw [List.cons_append, unescapeJSON_cons_safe b _ (h b (by simp)), ih (fun c hc => h c (by simp [hc]))]
    rw [Option.map_map]
    rfl

theorem hexVal_hexDig : ∀ v : Fin 16, hexVal (hexDig v.val) = some v.val := by decide

theorem unescape_repl (l : List Nat) :
    unescapeJSON (replBytes ++ l) = (unescapeJSON l).map (replChar ++ ·) := by
  rw [replBytes]
  rw [show ([92, 117, 102, 102, 102, 100] : List Nat) ++ l = 92 :: 117 :: 102 :: 102 :: 102 :: 100 :: l from rfl]
  rw [unescapeJSON.eq_def]
  norm_num [hexVal, fixSurrogate, utf8Enc, replChar]

theorem toJSON_nil : toJSON [] = [] := by rw [toJSON]

theorem toJSON_ascii (b : Nat) (t : List Nat) (h : b < 0x80) :
    toJSON (b :: t) = (if asciiSafe b then [b] else escByte b) ++ toJSON t := by
  rw [toJSON.eq_def]
  simp [h]

theorem toJSON_hi_nil (b : Nat) (h : ¬ b < 0x80) : toJSON [b] = replBytes := by
  rw [toJSON.eq_def]
  simp [h]

theorem toJSON_valid2 (b b1 : Nat) (t : List Nat) (h : ¬ b < 0x80) (hv : valid2 b b1 = true) :
    toJSON (b :: b1 :: t) = b :: b1 :: toJSON t := by
  rw [toJSON.eq_def]
  simp [h, hv]

theorem toJSON_invalid2_nil (b b1 : Nat) (h : ¬ b < 0x80) (hv : ¬ valid2 b b1 = true) :
    toJSON [b, b1] = replBytes ++ toJSON [b1] := by
  rw [toJSON.eq_def]
  simp [h, hv]

theorem toJSON_valid3 (b b1 b2 : Nat) (t : List Nat) (h : ¬ b < 0x80)
    (hv2 : ¬ valid2 b b1 = true) (hv3 : valid3 b b1 b2 = true) :
    toJSON (b :: b1 :: b2 :: t) = b :: b1 :: b2 :: toJSON t := by
  rw [toJSON.eq_def]
  simp [h, hv2, hv3]

theorem toJSON_invalid3_nil (b b1 b2 : Nat) (h : ¬ b < 0x80)
    (hv2 : ¬ valid2 b b1 = true) (hv3 : ¬ valid3 b b1 b2 = true) :
    toJSON [b, b1, b2] = replBytes ++ toJSON [b1, b2] := by
  rw [toJSON.eq_def]
  simp [h, hv2, hv3]

theorem toJSON_valid4 (b b1 b2 b3 : Nat) (t : List Nat) (h : ¬ b < 0x80)
    (hv2 : ¬ valid2 b b1 = true) (hv3 : ¬ valid3 b b1 b2 = true)
    (hv4 : valid4 b b1 b2 b3 = true) :
    toJSON (b :: b1 :: b2 :: b3 :: t) = b :: b1 :: b2 :: b3 :: toJSON t := by
  rw [toJSON.eq_def]
  simp [h, hv2, hv3, hv4]

theorem toJSON_invalid4 (b b1 b2 b3 : Nat) (t : List Nat) (h : ¬ b < 0x80)
    (hv2 : ¬ valid2 b b1 = true) (hv3 : ¬ valid3 b b1 b2 = true)
    (hv4 : ¬ valid4 b b1 b2 b3 = true) :
    toJSON (b :: b1 :: b2 :: b3 :: t) = replBytes ++ toJSON (b1 :: b2 :: b3 :: t) := by
  rw [toJSON.eq_def]
  simp [h, hv2, hv3, hv4]

theorem sanitize_nil : sanitize [] = [] := by rw [sanitize]

theorem sanitize_ascii (b : Nat) (t : List Nat) (h : b < 0x80) :
    sanitize (b :: t) = b :: sanitize t := by
  rw [sanitize.eq_def]
  simp [h]

theorem sanitize_hi_nil (b : Nat) (h : ¬ b < 0x80) : sanitize [b] = replChar := by
  rw [sanitize.eq_def]
  simp [h]

theorem sanitize_valid2 (b b1 : Nat) (t : List Nat) (h : ¬ b < 0x80) (hv : valid2 b b1 = true) :
    sanitize (b :: b1 :: t) = b :: b1 :: sanitize t := by
  rw [sanitize.eq_def]
  simp [h, hv]

theorem sanitize_invalid2_nil (b b1 : Nat) (h : ¬ b < 0x80) (hv : ¬ valid2 b b1 = true) :
    sanitize [b, b1] = replChar ++ sanitize [b1] := by
  rw [sanitize.eq_def]
  simp [h, hv]

theorem sanitize_valid3 (b b1 b2 : Nat) (t : List Nat) (h : ¬ b < 0x80)
    (hv2 : ¬ valid2 b b1 = true) (hv3 : valid3 b b1 b2 = true) :
    sanitize (b :: b1 :: b2 :: t) = b :: b1 :: b2 :: sanitize t := by
  rw [sanitize.eq_def]
  simp [h, hv2, hv3]

theorem sanitize_invalid3_nil (b b1 b2 : Nat) (h : ¬ b < 0x80)
    (hv2 : ¬ valid2 b b1 = true) (hv3 : ¬ valid3 b b1 b2 = true) :
    sanitize [b, b1, b2] = replChar ++ sanitize [b1, b2] := by
  rw [sanitize.eq_def]
  simp [h, hv2, hv3]

theorem sanitize_valid4 (b b1 b2 b3 : Nat) (t : List Nat) (h : ¬ b < 0x80)
    (hv2 : ¬ valid2 b b1 = true) (hv3 : ¬ valid3 b b1 b2 = true)
    (hv4 : valid4 b b1 b2 b3 = true) :
    sanitize (b :: b1 :: b2 :: b3 :: t) = b :: b1 :: b2 :: b3 :: sanitize t := by
  rw [sanitize.eq_def]
  simp [h, hv2, hv3, hv4]

theorem sanitize_invalid4 (b b1 b2 b3 : Nat) (t : List Nat) (h : ¬ b < 0x80)
    (hv2 : ¬ valid2 b b1 = true) (hv3 : ¬ valid3 b b1 b2 = true)
    (hv4 : ¬ valid4 b b1 b2 b3 = true) :
    sanitize (b :: b1 :: b2 :: b3 :: t) = replChar ++ sanitize (b1 :: b2 :: b3 :: t) := by
  rw [sanitize.eq_def]
  simp [h, hv2, hv3, hv4]

theorem unescape_esc (b : Nat) (l : List Nat) (hlt : b < 0x80) (hs : ¬ asciiSafe b = true) :
    unescapeJSON (escByte b ++ l) = (unescapeJSON l).map (b :: ·) := by
  rw [escByte]
  split_ifs with h1 h2 h3
  · rcases h1 with rfl | rfl
    · rw [show ([92, 92] : List Nat) ++ l = 92 :: 92 :: l from rfl, unescapeJSON.eq_def]
      norm_num
    · rw [show ([92, 34] : List Nat) ++ l = 92 :: 34 :: l from rfl, unescapeJSON.eq_def]
      norm_num
  · subst h2
    rw [show ([92, 110] : List Nat) ++ l = 92 :: 110 :: l from rfl, unescapeJSON.eq_def]
    norm_num
  · subst h3
    rw [show ([92, 114] : List Nat) ++ l = 92 :: 114 :: l from rfl, unescapeJSON.eq_def]
    norm_num
  · rw [show ([92, 117, 48, 48, hexDig (b / 16), hexDig (b % 16)] : List Nat) ++ l =
        92 :: 117 :: 48 :: 48 :: hexDig (b / 16) :: hexDig (b % 16) :: l from rfl,
      unescapeJSON.eq_def]
    have e1 : hexVal (hexDig (b / 16)) = some (b / 16) := hexVal_hexDig ⟨b / 16, by omega⟩
    have e2 : hexVal (hexDig (b % 16)) = some (b % 16) := hexVal_hexDig ⟨b % 16, by omega⟩
    have h48 : hexVal 48 = some 0 := by decide
    have hv : b / 16 * 16 + b % 16 = b := by omega
    have hfix : fixSurrogate b = b := by rw [fixSurrogate, if_neg (by omega)]
    have henc : utf8Enc b = [b] := by rw [utf8Enc, if_pos (by omega)]
    norm_num [h48, e1, e2, hv, hfix, henc]

theorem valid2_bounds {b b1 : Nat} (hv : valid2 b b1 = true) :
    (0xC2 ≤ b ∧ b ≤ 0xDF) ∧ (0x80 ≤ b1 ∧ b1 ≤ 0xBF) := by
  simpa [valid2, cont] using hv

theorem valid3_bounds {b b1 b2 : Nat} (hv : valid3 b b1 b2 = true) :
    (0xE0 ≤ b ∧ b ≤ 0xEF) ∧ 0x80 ≤ b1 ∧ b1 ≤ 0xBF ∧ (0x80 ≤ b2 ∧ b2 ≤ 0xBF) := by
  simp [valid3, cont] at hv
  split_ifs at hv <;> simp_all <;> omega

theorem valid4_bounds {b b1 b2 b3 : Nat} (hv : valid4 b b1 b2 b3 = true) :
    (0xF0 ≤ b ∧ b ≤ 0xF4) ∧ (0x80 ≤ b1 ∧ b1 ≤ 0xBF) ∧ (0x80 ≤ b2 ∧ b2 ≤ 0xBF) ∧
      (0x80 ≤ b3 ∧ b3 ≤ 0xBF) := by
  simp [valid4, cont] at hv
  split_ifs at hv <;> simp_all <;> omega

theorem unescape_toJSON (s : List Nat) : ∀ l : List Nat,
    unescapeJSON (toJSON s ++ l) = (unescapeJSON l).map (sanitize s ++ ·) := by
  induction s using toJSON.induct with
  | case1 =>
    intro l
    simp [toJSON_nil, sanitize_nil]
  | case2 b t hlt ih =>
    intro l
    rw [toJSON_ascii b t hlt, sanitize_ascii b t hlt]
    by_cases hs : asciiSafe b
    · rw [if_pos hs, List.singleton_append, List.cons_append]
      have hb92 : ¬ b = 92 := by
        simp [asciiSafe] at hs
        omega
      rw [unescapeJSON_cons_safe b _ hb92, ih l, Option.map_map]
      rfl
    · rw [if_neg hs, List.append_assoc, unescape_esc b _ hlt hs, ih l, Option.map_map]
      rfl
  | case3 b hlt =>
    intro l
    rw [toJSON_hi_nil b hlt, sanitize_hi_nil b hlt, unescape_repl]
  | case4 b hlt b1 t hv ih =>
    intro l
    rw [toJSON_valid2 b b1 t hlt hv, sanitize_valid2 b b1 t hlt hv]
    have h2 := valid2_bounds hv
    rw [List.cons_append, List.cons_append,
      unescapeJSON_cons_safe b _ (by omega), unescapeJSON_cons_safe b1 _ (by omega),
      ih l, Option.map_map, Option.map_map]
    rfl
  | case5 b hlt b1 hv ih =>
    intro l
    rw [toJSON_invalid2_nil b b1 hlt hv, sanitize_invalid2_nil b b1 hlt hv,
      List.append_assoc, unescape_repl, ih l, Option.map_map]
    simp [Function.comp_def, List.append_assoc]
  | case6 b hlt b1 hv2 b2 t hv3 ih =>
    intro l
    rw [toJSON_valid3 b b1 b2 t hlt hv2 hv3, sanitize_valid3 b b1 b2 t hlt hv2 hv3]
    have h3 := valid3_bounds hv3
    rw [List.cons_append, List.cons_append, List.cons_append,
      unescapeJSON_cons_safe b _ (by omega), unescapeJSON_cons_safe b1 _ (by omega),
      unescapeJSON_cons_safe b2 _ (by omega), ih l]
    simp [Option.map_map, Function.comp_def]
  | case7 b hlt b1 hv2 b2 hv3 ih =>
    intro l
    rw [toJSON_invalid3_nil b b1 b2 hlt hv2 hv3, sanitize_invalid3_nil b b1 b2 hlt hv2 hv3,
      List.append_assoc, unescape_repl, ih l, Option.map_map]
    simp [Function.comp_def, List.append_assoc]
  | case8 b hlt b1 hv2 b2 hv3 b3 t hv4 ih =>
    intro l
    rw [toJSON_valid4 b b1 b2 b3 t hlt hv2 hv3 hv4, sanitize_valid4 b b1 b2 b3 t hlt hv2 hv3 hv4]
    have h4 := valid4_bounds hv4
    rw [List.cons_append, List.cons_append, List.cons_append, List.cons_append,
      unescapeJSON_cons_safe b _ (by omega), unescapeJSON_cons_safe b1 _ (by omega),
      unescapeJSON_cons_safe b2 _ (by omega), unescapeJSON_cons_safe b3 _ (by omega), ih l]
    simp [Option.map_map, Function.comp_def]
  | case9 b hlt b1 hv2 b2 hv3 b3 t hv4 ih =>
    intro l
    rw [toJSON_invalid4 b b1 b2 b3 t hlt hv2 hv3 hv4,
      sanitize_invalid4 b b1 b2 b3 t hlt hv2 hv3 hv4,
      List.append_assoc, unescape_repl, ih l, Option.map_map]
    simp [Function.comp_def, List.append_assoc]

theorem unescape_toJSON_nil (s : List Nat) : unescapeJSON (toJSON s) = some (sanitize s) := by
  have h := unescape_toJSON s []
  rw [List.append_nil] at h
  rw [h]
  simp [unescapeJSON]

/-! scanning a JSON string body (up to the closing quote) -/

def scanStr : List Nat → Option (List Nat × List Nat)
  | [] => none
  | b :: rest =>
    if b = 34 then some ([], rest)
    else if b = 92 then
      match rest with
      | [] => none
      | c :: rest' =>
        match scanStr rest' with
        | some (cnt, r) => some (92 :: c :: cnt, r)
        | none => none
    else
      match scanStr rest with
      | some (cnt, r) => some (b :: cnt, r)
      | none => none

theorem scanStr_cons_safe (b : Nat) (l : List Nat) (h34 : ¬ b = 34) (h92 : ¬ b = 92) :
    scanStr (b :: l) = (scanStr l).map (fun p => (b :: p.1, p.2)) := by
  rw [scanStr.eq_def]
  simp only [if_neg h34, if_neg h92]
  cases scanStr l with
  | none => rfl
  | some p => cases p; rfl

theorem scanStr_esc_pair (c : Nat) (l : List Nat) :
    scanStr (92 :: c :: l) = (scanStr l).map (fun p => (92 :: c :: p.1, p.2)) := by
  rw [scanStr.eq_def]
  norm_num
  cases scanStr l with
  | none => rfl
  | some p => cases p; rfl

theorem scanStr_append_safe (x : List Nat) (l : List Nat)
    (h : ∀ b ∈ x, ¬ b = 34 ∧ ¬ b = 92) :
    scanStr (x ++ l) = (scanStr l).map (fun p => (x ++ p.1, p.2)) := by
  induction x with
  | nil =>
    cases hs : scanStr l with
    | none => simp [hs]
    | some p => cases p; simp [hs]
  | cons b x' ih =>
    rw [List.cons_append, scanStr_cons_safe b _ (h b (by simp)).1 (h b (by simp)).2,
      ih (fun c hc => h c (by simp [hc]))]
    cases scanStr l with
    | none => rfl
    | some p => cases p; rfl

theorem escByte_scan_safe (b : Nat) (hlt : b < 0x80) (l : List Nat) :
    scanStr (escByte b ++ l) = (scanStr l).map (fun p => (escByte b ++ p.1, p.2)) := by
  rw [escByte]
  split_ifs with h1 h2 h3
  · rw [show ([92, b] : List Nat) ++ l = 92 :: b :: l from rfl, scanStr_esc_pair]
    cases scanStr l with
    | none => rfl
    | some p => cases p; rfl
  · subst h2
    rw [show ([92, 110] : List Nat) ++ l = 92 :: 110 :: l from rfl, scanStr_esc_pair]
    cases scanStr l with
    | none => rfl
    | some p => cases p; rfl
  · subst h3
    rw [show ([92, 114] : List Nat) ++ l = 92 :: 114 :: l from rfl, scanStr_esc_pair]
    cases scanStr l with
    | none => rfl
    | some p => cases p; rfl
  · rw [show ([92, 117, 48, 48, hexDig (b / 16), hexDig (b % 16)] : List Nat) ++ l =
        92 :: 117 :: (48 :: 48 :: hexDig (b / 16) :: hexDig (b % 16) :: l) from rfl,
      scanStr_esc_pair]
    have hd1 : ¬ hexDig (b / 16) = 34 ∧ ¬ hexDig (b / 16) = 92 := by
      rw [hexDig]; split_ifs <;> omega
    have hd2 : ¬ hexDig (b % 16) = 34 ∧ ¬ hexDig (b % 16) = 92 := by
      rw [hexDig]; split_ifs <;> omega
    rw [show (48 : Nat) :: 48 :: hexDig (b / 16) :: hexDig (b % 16) :: l =
        [48, 48, hexDig (b / 16), hexDig (b % 16)] ++ l from rfl,
      scanStr_append_safe _ _ (by
        intro c hc
        simp at hc
        rcases hc with rfl | rfl | rfl
        · omega
        · exact hd1
        · exact hd2)]
    cases scanStr l with
    | none => rfl
    | some p => cases p; rfl

theorem scanStr_toJSON (s : List Nat) : ∀ l : List Nat,
    scanStr (toJSON s ++ l) = (scanStr l).map (fun p => (toJSON s ++ p.1, p.2)) := by
  induction s using toJSON.induct with
  | case1 =>
    intro l
    rw [toJSON_nil, List.nil_append]
    cases scanStr l with
    | none => rfl
    | some p => cases p; rfl
  | case2 b t hlt ih =>
    intro l
    rw [toJSON_ascii b t hlt]
    by_cases hs : asciiSafe b
    · rw [if_pos hs]
      have h34 : ¬ b = 34 := by simp [asciiSafe] at hs; omega
      have h92 : ¬ b = 92 := by simp [asciiSafe] at hs; omega
      rw [List.singleton_append, List.cons_append, scanStr_cons_safe b _ h34 h92, ih l]
      cases scanStr l with
      | none => rfl
      | some p => cases p; rfl
    · rw [if_neg hs, List.append_assoc, escByte_scan_safe b hlt, ih l]
      cases scanStr l with
      | none => rfl
      | some p => cases p; simp
  | case3 b hlt =>
    intro l
    rw [toJSON_hi_nil b hlt, replBytes,
      show ([92, 117, 102, 102, 102, 100] : List Nat) ++ l =
        92 :: 117 :: ([102, 102, 102, 100] ++ l) from rfl, scanStr_esc_pair,
      scanStr_append_safe _ _ (by intro c hc; simp at hc; rcases hc with rfl | rfl | rfl | rfl <;> omega)]
    cases scanStr l with
    | none => rfl
    | some p => cases p; rfl
  | case4 b hlt b1 t hv ih =>
    intro l
    rw [toJSON_valid2 b b1 t hlt hv]
    have h2 := valid2_bounds hv
    rw [List.cons_append, List.cons_append, scanStr_cons_safe b _ (by omega) (by omega),
      scanStr_cons_safe b1 _ (by omega) (by omega), ih l]
    cases scanStr l with
    | none => rfl
    | some p => cases p; rfl
  | case5 b hlt b1 hv ih =>
    intro l
    rw [toJSON_invalid2_nil b b1 hlt hv, List.append_assoc, replBytes,
      show ([92, 117, 102, 102, 102, 100] : List Nat) ++ (toJSON [b1] ++ l) =
        92 :: 117 :: ([102, 102, 102, 100] ++ (toJSON [b1] ++ l)) from rfl, scanStr_esc_pair,
      scanStr_append_safe _ _ (by intro c hc; simp at hc; rcases hc with rfl | rfl | rfl | rfl <;> omega),
      ih l]
    cases scanStr l with
    | none => rfl
    | some p => cases p; simp [replBytes]
  | case6 b hlt b1 hv2 b2 t hv3 ih =>
    intro l
    rw [toJSON_valid3 b b1 b2 t hlt hv2 hv3]
    have h3 := valid3_bounds hv3
    rw [List.cons_append, List.cons_append, List.cons_append,
      scanStr_cons_safe b _ (by omega) (by omega),
      scanStr_cons_safe b1 _ (by omega) (by omega),
      scanStr_cons_safe b2 _ (by omega) (by omega), ih l]
    cases scanStr l with
    | none => rfl
    | some p => cases p; rfl
  | case7 b hlt b1 hv2 b2 hv3 ih =>
    intro l
    rw [toJSON_invalid3_nil b b1 b2 hlt hv2 hv3, List.append_assoc, replBytes,
      show ([92, 117, 102, 102, 102, 100] : List Nat) ++ (toJSON [b1, b2] ++ l) =
        92 :: 117 :: ([102, 102, 102, 100] ++ (toJSON [b1, b2] ++ l)) from rfl, scanStr_esc_pair,
      scanStr_append_safe _ _ (by intro c hc; simp at hc; rcases hc with rfl | rfl | rfl | rfl <;> omega),
      ih l]
    cases scanStr l with
    | none => rfl
    | some p => cases p; simp [replBytes]
  | case8 b hlt b1 hv2 b2 hv3 b3 t hv4 ih =>
    intro l
    rw [toJSON_valid4 b b1 b2 b3 t hlt hv2 hv3 hv4]
    have h4 := valid4_bounds hv4
    rw [List.cons_append, List.cons_append, List.cons_append, List.cons_append,
      scanStr_cons_safe b _ (by omega) (by omega),
      scanStr_cons_safe b1 _ (by omega) (by omega),
      scanStr_cons_safe b2 _ (by omega) (by omega),
      scanStr_cons_safe b3 _ (by omega) (by omega), ih l]
    cases scanStr l with
    | none => rfl
    | some p => cases p; rfl
  | case9 b hlt b1 hv2 b2 hv3 b3 t hv4 ih =>
    intro l
    rw [toJSON_invalid4 b b1 b2 b3 t hlt hv2 hv3 hv4, List.append_assoc, replBytes,
      show ([92, 117, 102, 102, 102, 100] : List Nat) ++ (toJSON (b1 :: b2 :: b3 :: t) ++ l) =
        92 :: 117 :: ([102, 102, 102, 100] ++ (toJSON (b1 :: b2 :: b3 :: t) ++ l)) from rfl,
      scanStr_esc_pair,
      scanStr_append_safe _ _ (by intro c hc; simp at hc; rcases hc with rfl | rfl | rfl | rfl <;> omega),
      ih l]
    cases scanStr l with
    | none => rfl
    | some p => cases p; simp [replBytes]

/-- Parse one JSON string (after the opening quote): scan to the closing
quote, then unescape the raw content. -/
def parseJStr (l : List Nat) : Option (List Nat × List Nat) :=
  match scanStr l with
  | none => none
  | some (raw, rest) =>
    match unescapeJSON raw with
    | none => none
    | some s => some (s, rest)

theorem scanStr_quote (rest : List Nat) : scanStr (34 :: rest) = some ([], rest) := by
  rw [scanStr.eq_def]
  norm_num

theorem unescapeJSON_safe_id (x : List Nat) (h : ∀ b ∈ x, ¬ b = 92) :
    unescapeJSON x = some x := by
  have h2 := unescapeJSON_append_safe x [] h
  simpa [unescapeJSON] using h2

theorem parseJStr_toJSON (s : List Nat) (rest : List Nat) :
    parseJStr (toJSON s ++ 34 :: rest) = some (sanitize s, rest) := by
  rw [parseJStr, scanStr_toJSON s (34 :: rest), scanStr_quote]
  simp only [Option.map, List.append_nil]
  rw [unescape_toJSON_nil]

theorem parseJStr_safe (x : List Nat) (rest : List Nat)
    (h : ∀ b ∈ x, ¬ b = 34 ∧ ¬ b = 92) :
    parseJStr (x ++ 34 :: rest) = some (x, rest) := by
  rw [parseJStr, scanStr_append_safe x _ h, scanStr_quote]
  simp only [Option.map, List.append_nil]
  rw [unescapeJSON_safe_id x (fun b hb => (h b hb).2)]

theorem scanStr_consumes : ∀ l c r, scanStr l = some (c, r) → r.length < l.length := by
  intro l
  induction l using scanStr.induct with
  | case1 => simp [scanStr]
  | case2 rest =>
    intro c r h
    rw [scanStr.eq_def] at h
    simp only [if_pos rfl, Option.some.injEq, Prod.mk.injEq] at h
    rcases h with ⟨-, rfl⟩
    simp
  | case3 hne =>
    intro c r h
    rw [scanStr.eq_def] at h
    simp only [if_neg hne, if_pos rfl] at h
    exact absurd h (by simp)
  | case4 c0 rest cnt r0 hs hne ih =>
    intro c r h
    rw [scanStr.eq_def] at h
    simp only [if_neg hne, if_pos rfl, hs, Option.some.injEq, Prod.mk.injEq] at h
    rcases h with ⟨-, rfl⟩
    have := ih cnt r0 hs
    simp only [List.length_cons]
    omega
  | case5 c0 rest hs hne ih =>
    intro c r h
    rw [scanStr.eq_def] at h
    simp only [if_neg hne, if_pos rfl, hs] at h
    exact absurd h (by simp)
  | case6 c0 rest h34 h92 cnt r0 hs ih =>
    intro c r h
    rw [scanStr.eq_def] at h
    simp only [if_neg h34, if_neg h92, hs, Option.some.injEq, Prod.mk.injEq] at h
    rcases h with ⟨-, rfl⟩
    have := ih cnt r0 hs
    simp only [List.length_cons]
    omega
  | case7 c0 rest h34 h92 hs ih =>
    intro c r h
    rw [scanStr.eq_def] at h
    simp only [if_neg h34, if_neg h92, hs] at h
    exact absurd h (by simp)

theorem parseJStr_consumes (l : List Nat) (s r : List Nat) (h : parseJStr l = some (s, r)) :
    r.length < l.length := by
  rw [parseJStr] at h
  cases hs : scanStr l with
  | none => rw [hs] at h; cases h
  | some p =>
    obtain ⟨raw, rest⟩ := p
    rw [hs] at h
    simp only at h
    cases hu : unescapeJSON raw with
    | none => rw [hu] at h; cases h
    | some s2 =>
      rw [hu] at h
      simp only [Option.some.injEq, Prod.mk.injEq] at h
      rcases h with ⟨-, rfl⟩
      exact scanStr_consumes l raw _ hs

/-! JSON values and the restricted parser modelling json.Unmarshal into
map[string]map[string]interface{} (values are strings or arrays of strings,
which is all the generated Encode emits) -/

inductive JVal where
  | str (s : List Nat)
  | arr (elems : List JVal)

def parseElems : List Nat → Option (List JVal × List Nat)
  | [] => none
  | b :: rest =>
    if b = 93 then some ([], rest)
    else if b = 34 then
      match h : parseJStr rest with
      | none => none
      | some (_, []) => none
      | some (s, d :: r2) =>
        if d = 44 then
          match parseElems r2 with
          | none => none
          | some (xs, r3) => some (JVal.str s :: xs, r3)
        else if d = 93 then some ([JVal.str s], r2)
        else none
    else none
termination_by l => l.length
decreasing_by
  have h2 := parseJStr_consumes rest _ _ h
  simp only [List.length_cons] at *
  omega

theorem parseElems_consumes : ∀ l xs r, parseElems l = some (xs, r) → r.length < l.length := by
  intro l
  induction l using parseElems.induct with
  | case1 => simp [parseElems]
  | case2 rest =>
    intro xs r h
    rw [parseElems.eq_def] at h
    simp only [if_pos rfl, Option.some.injEq, Prod.mk.injEq] at h
    rcases h with ⟨-, rfl⟩
    simp
  | case3 rest hp hne =>
    intro xs r h
    rw [parseElems.eq_def] at h
    norm_num at h
    split at h
    · cases h
    · cases h
    · rename_i s2 d2 r22 heq
      rw [hp] at heq
      cases heq
  | case4 rest s0 hp hne =>
    intro xs r h
    rw [parseElems.eq_def] at h
    norm_num at h
    split at h
    · cases h
    · cases h
    · rename_i s2 d2 r22 heq
      rw [hp] at heq
      simp at heq
  | case5 rest s r2 hrec hne hp ih =>
    intro xs r h
    rw [parseElems.eq_def] at h
    norm_num at h
    split at h
    · cases h
    · cases h
    · rename_i s2 d2 r22 heq
      rw [hp] at heq
      simp only [Option.some.injEq, Prod.mk.injEq, List.cons.injEq] at heq
      obtain ⟨rfl, rfl, rfl⟩ := heq
      norm_num [hrec] at h
      cases h
  | case6 rest s r2 xs0 r3 hrec hne hp ih =>
    intro xs r h
    rw [parseElems.eq_def] at h
    norm_num at h
    split at h
    · cases h
    · cases h
    · rename_i s2 d2 r22 heq
      rw [hp] at heq
      simp only [Option.some.injEq, Prod.mk.injEq, List.cons.injEq] at heq
      obtain ⟨rfl, rfl, rfl⟩ := heq
      norm_num [hrec] at h
      rcases h with ⟨-, rfl⟩
      have hc := parseJStr_consumes rest _ _ hp
      have := ih _ _ hrec
      simp only [List.length_cons] at *
      omega
  | case7 rest s r2 hne hp hne2 =>
    intro xs r h
    rw [parseElems.eq_def] at h
    norm_num at h
    split at h
    · cases h
    · cases h
    · rename_i s2 d2 r22 heq
      rw [hp] at heq
      simp only [Option.some.injEq, Prod.mk.injEq, List.cons.injEq] at heq
      obtain ⟨rfl, rfl, rfl⟩ := heq
      norm_num at h
      rcases h with ⟨-, rfl⟩
      have hc := parseJStr_consumes rest _ _ hp
      simp only [List.length_cons] at *
      omega
  | case8 rest s d r2 hp hd44 hd93 hne =>
    intro xs r h
    rw [parseElems.eq_def] at h
    norm_num at h
    split at h
    · cases h
    · cases h
    · rename_i s2 d2 r22 heq
      rw [hp] at heq
      simp only [Option.some.injEq, Prod.mk.injEq, List.cons.injEq] at heq
      obtain ⟨rfl, rfl, rfl⟩ := heq
      norm_num [hd44, hd93] at h
      cases h
  | case9 c rest hc93 hc34 =>
    intro xs r h
    rw [parseElems.eq_def] at h
    simp [hc93, hc34] at h

def parseVal (l : List Nat) : Option (JVal × List Nat) :=
  match l with
  | [] => none
  | b :: rest =>
    if b = 34 then
      match parseJStr rest with
      | some (s, r) => some (JVal.str s, r)
      | none => none
    else if b = 91 then
      match parseElems rest with
      | some (xs, r) => some (JVal.arr xs, r)
      | none => none
    else none

theorem parseVal_consumes (l : List Nat) (v : JVal) (r : List Nat)
    (h : parseVal l = some (v, r)) : r.length < l.length := by
  match l with
  | [] => simp [parseVal] at h
  | b :: rest =>
    rw [parseVal] at h
    by_cases h34 : b = 34
    · rw [if_pos h34] at h
      cases hs : parseJStr rest with
      | none => rw [hs] at h; cases h
      | some p =>
        obtain ⟨s, r1⟩ := p
        rw [hs] at h
        simp only [Option.some.injEq, Prod.mk.injEq] at h
        rcases h with ⟨-, rfl⟩
        have := parseJStr_consumes rest _ _ hs
        simp only [List.length_cons]
        omega
    · rw [if_neg h34] at h
      by_cases h91 : b = 91
      · rw [if_pos h91] at h
        cases hs : parseElems rest with
        | none => rw [hs] at h; cases h
        | some p =>
          obtain ⟨xs, r1⟩ := p
          rw [hs] at h
          simp only [Option.some.injEq, Prod.mk.injEq] at h
          rcases h with ⟨-, rfl⟩
          have := parseElems_consumes rest _ _ hs
          simp only [List.length_cons]
          omega
      · rw [if_neg h91] at h
        cases h

def parsePairs : List Nat → Option (List (List Nat × JVal) × List Nat)
  | [] => none
  | b :: rest =>
    if b = 125 then some ([], rest)
    else if b = 34 then
      match hk : parseJStr rest with
      | none => none
      | some (_, []) => none
      | some (k, c :: r2) =>
        if c = 58 then
          match hv : parseVal r2 with
          | none => none
          | some (_, []) => none
          | some (v, d :: r4) =>
            if d = 44 then
              match parsePairs r4 with
              | none => none
              | some (ps, r5) => some ((k, v) :: ps, r5)
            else if d = 125 then some ([(k, v)], r4)
            else none
        else none
    else none
termination_by l => l.length
decreasing_by
  have hk2 := parseJStr_consumes rest _ _ hk
  have hv2 := parseVal_consumes r2 _ _ hv
  simp only [List.length_cons] at *
  omega

theorem parsePairs_consumes : ∀ l ps r, parsePairs l = some (ps, r) → r.length < l.length := by
  intro l
  induction l using parsePairs.induct with
  | case1 => simp [parsePairs]
  | case2 rest =>
    intro ps r h
    rw [parsePairs.eq_def] at h
    simp only [if_pos rfl, Option.some.injEq, Prod.mk.injEq] at h
    rcases h with ⟨-, rfl⟩
    simp
  | case3 rest hk hne =>
    intro ps r h
    rw [parsePairs.eq_def] at h
    norm_num at h
    split at h
    · cases h
    · cases h
    · rename_i k2 c2 r22 heq
      rw [hk] at heq
      cases heq
  | case4 rest k0 hk hne =>
    intro ps r h
    rw [parsePairs.eq_def] at h
    norm_num at h
    split at h
    · cases h
    · cases h
    · rename_i k2 c2 r22 heq
      rw [hk] at heq
      simp at heq
  | case5 rest s r2 hv hne hk =>
    intro ps r h
    rw [parsePairs.eq_def] at h
    norm_num at h
    split at h
    · cases h
    · cases h
    · rename_i k2 c2 r22 heq
      rw [hk] at heq
      simp only [Option.some.injEq, Prod.mk.injEq, List.cons.injEq] at heq
      obtain ⟨rfl, rfl, rfl⟩ := heq
      norm_num at h
      split at h
      · cases h
      · cases h
      · rename_i v2 d2 r42 heq2
        rw [hv] at heq2
        cases heq2
  | case6 rest s r2 v0 hv hne hk =>
    intro ps r h
    rw [parsePairs.eq_def] at h
    norm_num at h
    split at h
    · cases h
    · cases h
    · rename_i k2 c2 r22 heq
      rw [hk] at heq
      simp only [Option.some.injEq, Prod.mk.injEq, List.cons.injEq] at heq
      obtain ⟨rfl, rfl, rfl⟩ := heq
      norm_num at h
      split at h
      · cases h
      · cases h
      · rename_i v2 d2 r42 heq2
        rw [hv] at heq2
        simp at heq2
  | case7 rest s r2 v r4 hrec hne hk hv ih =>
    intro ps r h
    rw [parsePairs.eq_def] at h
    norm_num at h
    split at h
    · cases h
    · cases h
    · rename_i k2 c2 r22 heq
      rw [hk] at heq
      simp only [Option.some.injEq, Prod.mk.injEq, List.cons.injEq] at heq
      obtain ⟨rfl, rfl, rfl⟩ := heq
      norm_num at h
      split at h
      · cases h
      · cases h
      · rename_i v2 d2 r42 heq2
        rw [hv] at heq2
        simp only [Option.some.injEq, Prod.mk.injEq, List.cons.injEq] at heq2
        obtain ⟨rfl, rfl, rfl⟩ := heq2
        norm_num [hrec] at h
        cases h
  | case8 rest s r2 v r4 ps0 r5 hrec hne hk hv ih =>
    intro ps r h
    rw [parsePairs.eq_def] at h
    norm_num at h
    split at h
    · cases h
    · cases h
    · rename_i k2 c2 r22 heq
      rw [hk] at heq
      simp only [Option.some.injEq, Prod.mk.injEq, List.cons.injEq] at heq
      obtain ⟨rfl, rfl, rfl⟩ := heq
      norm_num at h
      split at h
      · cases h
      · cases h
      · rename_i v2 d2 r42 heq2
        rw [hv] at heq2
        simp only [Option.some.injEq, Prod.mk.injEq, List.cons.injEq] at heq2
        obtain ⟨rfl, rfl, rfl⟩ := heq2
        norm_num [hrec] at h
        rcases h with ⟨-, rfl⟩
        have h1 := parseJStr_consumes rest _ _ hk
        have h2 := parseVal_consumes r2 _ _ hv
        have h3 := ih _ _ hrec
        simp only [List.length_cons] at *
        omega
  | case9 rest s r2 v r4 hne hk hv hne2 =>
    intro ps r h
    rw [parsePairs.eq_def] at h
    norm_num at h
    split at h
    · cases h
    · cases h
    · rename_i k2 c2 r22 heq
      rw [hk] at heq
      simp only [Option.some.injEq, Prod.mk.injEq, List.cons.injEq] at heq
      obtain ⟨rfl, rfl, rfl⟩ := heq
      norm_num at h
      split at h
      · cases h
      · cases h
      · rename_i v2 d2 r42 heq2
        rw [hv] at heq2
        simp only [Option.some.injEq, Prod.mk.injEq, List.cons.injEq] at heq2
        obtain ⟨rfl, rfl, rfl⟩ := heq2
        norm_num at h
        rcases h with ⟨-, rfl⟩
        have h1 := parseJStr_consumes rest _ _ hk
        have h2 := parseVal_consumes r2 _ _ hv
        simp only [List.length_cons] at *
        omega
  | case10 rest s r2 v d r4 hv hd44 hd125 hne hk =>
    intro ps r h
    rw [parsePairs.eq_def] at h
    norm_num at h
    split at h
    · cases h
    · cases h
    · rename_i k2 c2 r22 heq
      rw [hk] at heq
      simp only [Option.some.injEq, Prod.mk.injEq, List.cons.injEq] at heq
      obtain ⟨rfl, rfl, rfl⟩ := heq
      norm_num at h
      split at h
      · cases h
      · cases h
      · rename_i v2 d2 r42 heq2
        rw [hv] at heq2
        simp only [Option.some.injEq, Prod.mk.injEq, List.cons.injEq] at heq2
        obtain ⟨rfl, rfl, rfl⟩ := heq2
        norm_num [hd44, hd125] at h
        cases h
  | case11 rest s d r2 hk hd58 hne =>
    intro ps r h
    rw [parsePairs.eq_def] at h
    norm_num at h
    split at h
    · cases h
    · cases h
    · rename_i k2 c2 r22 heq
      rw [hk] at heq
      simp only [Option.some.injEq, Prod.mk.injEq, List.cons.injEq] at heq
      obtain ⟨rfl, rfl, rfl⟩ := heq
      norm_num [hd58] at h
      cases h
  | case12 c rest hc125 hc34 =>
    intro ps r h
    rw [parsePairs.eq_def] at h
    simp [hc125, hc34] at h

/-- One table item as decoded: attribute name ↦ (type tag ↦ value). -/
abbrev DData := List (List Nat × List (List Nat × JVal))

def parseTopPairs : List Nat → Option (DData × List Nat)
  | [] => none
  | b :: rest =>
    if b = 125 then some ([], rest)
    else if b = 34 then
      match hk : parseJStr rest with
      | none => none
      | some (_, []) => none
      | some (k, c :: r2) =>
        if c = 58 then
          match r2 with
          | [] => none
          | o :: r3 =>
            if o = 123 then
              match hp : parsePairs r3 with
              | none => none
              | some (_, []) => none
              | some (inner, d :: r5) =>
                if d = 44 then
                  match parseTopPairs r5 with
                  | none => none
                  | some (ps, r6) => some ((k, inner) :: ps, r6)
                else if d = 125 then some ([(k, inner)], r5)
                else none
            else none
        else none
    else none
termination_by l => l.length
decreasing_by
  have hk2 := parseJStr_consumes rest _ _ hk
  have hp2 := parsePairs_consumes r3 _ _ hp
  simp only [List.length_cons] at *
  omega

/-- Model of `json.Unmarshal(body, &m)` for `m : map[string]map[string]interface{}`
on the JSON texts the generated `Encode` produces: a top-level object whose
values are objects of strings or arrays of strings, with no surrounding
whitespace; the whole input must be consumed. -/
def parseItem (l : List Nat) : Option DData :=
  match l with
  | [] => none
  | b :: rest =>
    if b = 123 then
      match parseTopPairs rest with
      | some (d, []) => some d
      | _ => none
    else none

/-- The element loop of the generated `Encode`: each element is written as
`"<elem>"`, separated by commas (`"` then elem, then `"` for the last
element and `",` otherwise). -/
def encodeElems : List (List Nat) → List Nat
  | [] => []
  | [e] => 34 :: (e ++ [34])
  | e :: rest => 34 :: (e ++ 34 :: 44 :: encodeElems rest)

theorem parseElems_close (rest : List Nat) : parseElems (93 :: rest) = some ([], rest) := by
  rw [parseElems.eq_def]
  norm_num

theorem parseElems_str_comma (rest s r2 : List Nat) (h : parseJStr rest = some (s, 44 :: r2)) :
    parseElems (34 :: rest) =
      (match parseElems r2 with
       | none => none
       | some (xs, r3) => some (JVal.str s :: xs, r3)) := by
  rw [parseElems.eq_def]
  norm_num
  split
  · rename_i heq
    rw [h] at heq
    cases heq
  · rename_i s2 heq
    rw [h] at heq
    simp at heq
  · rename_i s2 d2 r22 heq
    rw [h] at heq
    simp only [Option.some.injEq, Prod.mk.injEq, List.cons.injEq] at heq
    obtain ⟨rfl, rfl, rfl⟩ := heq
    norm_num

theorem parseElems_str_close (rest s r2 : List Nat) (h : parseJStr rest = some (s, 93 :: r2)) :
    parseElems (34 :: rest) = some ([JVal.str s], r2) := by
  rw [parseElems.eq_def]
  norm_num
  split
  · rename_i heq
    rw [h] at heq
    cases heq
  · rename_i s2 heq
    rw [h] at heq
    simp at heq
  · rename_i s2 d2 r22 heq
    rw [h] at heq
    simp only [Option.some.injEq, Prod.mk.injEq, List.cons.injEq] at heq
    obtain ⟨rfl, rfl, rfl⟩ := heq
    norm_num

theorem parseElems_encode {α : Type} (enc f : α → List Nat) (xs : List α)
    (hf : ∀ e ∈ xs, ∀ l, parseJStr (enc e ++ 34 :: l) = some (f e, l)) :
    ∀ rest : List Nat,
      parseElems (encodeElems (xs.map enc) ++ 93 :: rest) =
        some (xs.map (fun e => JVal.str (f e)), rest) := by
  induction xs with
  | nil =>
    intro rest
    simp only [List.map_nil]
    rw [encodeElems, List.nil_append, parseElems_close]
  | cons e rest2 ih =>
    cases rest2 with
    | nil =>
      intro rest
      simp only [List.map]
      rw [encodeElems]
      rw [show (34 :: (enc e ++ [34])) ++ 93 :: rest = 34 :: (enc e ++ 34 :: 93 :: rest) by simp]
      rw [parseElems_str_close _ _ _ (hf e (by simp) (93 :: rest))]
    | cons e2 rest3 =>
      intro rest
      simp only [List.map]
      rw [show encodeElems (enc e :: enc e2 :: List.map enc rest3) =
          34 :: (enc e ++ 34 :: 44 :: encodeElems (enc e2 :: List.map enc rest3)) from by
        rw [encodeElems]
        exact fun h => List.noConfusion h]
      rw [show (34 :: (enc e ++ 34 :: 44 :: encodeElems (enc e2 :: List.map enc rest3))) ++ 93 :: rest =
          34 :: (enc e ++ 34 :: 44 :: (encodeElems (enc e2 :: List.map enc rest3) ++ 93 :: rest)) by simp]
      rw [parseElems_str_comma _ _ _ (hf e (by simp) _)]
      have ih2 := ih (fun x hx => hf x (by simp [hx])) rest
      simp only [List.map] at ih2
      rw [ih2]

theorem parseVal_str (e f : List Nat) (hf : ∀ l, parseJStr (e ++ 34 :: l) = some (f, l)) :
    ∀ l, parseVal ((34 :: (e ++ [34])) ++ l) = some (JVal.str f, l) := by
  intro l
  rw [show (34 :: (e ++ [34])) ++ l = 34 :: (e ++ 34 :: l) by simp]
  rw [parseVal]
  norm_num [hf l]

theorem parseVal_arr {α : Type} (enc f : α → List Nat) (xs : List α)
    (hf : ∀ e ∈ xs, ∀ l, parseJStr (enc e ++ 34 :: l) = some (f e, l)) :
    ∀ l, parseVal ((91 :: (encodeElems (xs.map enc) ++ [93])) ++ l) =
      some (JVal.arr (xs.map (fun e => JVal.str (f e))), l) := by
  intro l
  rw [show (91 :: (encodeElems (xs.map enc) ++ [93])) ++ l =
      91 :: (encodeElems (xs.map enc) ++ 93 :: l) by simp]
  rw [parseVal]
  norm_num [parseElems_encode enc f xs hf l]

theorem parsePairs_one (tag : List Nat) (htag : ∀ b ∈ tag, ¬ b = 34 ∧ ¬ b = 92)
    (vb : List Nat) (v : JVal) (hv : ∀ l, parseVal (vb ++ l) = some (v, l)) :
    ∀ l, parsePairs (34 :: (tag ++ 34 :: 58 :: (vb ++ 125 :: l))) = some ([(tag, v)], l) := by
  intro l
  have hk : parseJStr (tag ++ 34 :: 58 :: (vb ++ 125 :: l)) =
      some (tag, 58 :: (vb ++ 125 :: l)) := parseJStr_safe tag _ htag
  have hval : parseVal (vb ++ 125 :: l) = some (v, 125 :: l) := hv (125 :: l)
  rw [parsePairs.eq_def]
  norm_num
  split
  · rename_i heq
    rw [hk] at heq
    cases heq
  · rename_i s2 heq
    rw [hk] at heq
    simp at heq
  · rename_i s2 c2 r22 heq
    rw [hk] at heq
    simp only [Option.some.injEq, Prod.mk.injEq, List.cons.injEq] at heq
    obtain ⟨rfl, rfl, rfl⟩ := heq
    norm_num
    split
    · rename_i heq2
      rw [hval] at heq2
      cases heq2
    · rename_i v2 heq2
      rw [hval] at heq2
      simp at heq2
    · rename_i v2 d2 r42 heq2
      rw [hval] at heq2
      simp only [Option.some.injEq, Prod.mk.injEq, List.cons.injEq] at heq2
      obtain ⟨rfl, rfl, rfl⟩ := heq2
      norm_num

theorem parseTopPairs_field_last (key tag : List Nat)
    (hkey : ∀ b ∈ key, ¬ b = 34 ∧ ¬ b = 92) (htag : ∀ b ∈ tag, ¬ b = 34 ∧ ¬ b = 92)
    (vb : List Nat) (v : JVal) (hv : ∀ l, parseVal (vb ++ l) = some (v, l)) :
    ∀ l, parseTopPairs
        (34 :: (key ++ 34 :: 58 :: 123 :: 34 :: (tag ++ 34 :: 58 :: (vb ++ 125 :: 125 :: l)))) =
      some ([(key, [(tag, v)])], l) := by
  intro l
  have hk : parseJStr (key ++ 34 :: 58 :: 123 :: 34 :: (tag ++ 34 :: 58 :: (vb ++ 125 :: 125 :: l))) =
      some (key, 58 :: 123 :: 34 :: (tag ++ 34 :: 58 :: (vb ++ 125 :: 125 :: l))) :=
    parseJStr_safe key _ hkey
  have hp : parsePairs (34 :: (tag ++ 34 :: 58 :: (vb ++ 125 :: 125 :: l))) =
      some ([(tag, v)], 125 :: l) := parsePairs_one tag htag vb v hv (125 :: l)
  rw [parseTopPairs.eq_def]
  norm_num
  split
  · rename_i heq
    rw [hk] at heq
    cases heq
  · rename_i s2 heq
    rw [hk] at heq
    simp at heq
  · rename_i s2 c2 r22 heq
    rw [hk] at heq
    simp only [Option.some.injEq, Prod.mk.injEq, List.cons.injEq] at heq
    obtain ⟨rfl, rfl, rfl⟩ := heq
    norm_num
    split
    · rename_i heq2
      rw [hp] at heq2
      cases heq2
    · rename_i i2 heq2
      rw [hp] at heq2
      simp at heq2
    · rename_i i2 d2 r52 heq2
      rw [hp] at heq2
      simp only [Option.some.injEq, Prod.mk.injEq, List.cons.injEq] at heq2
      obtain ⟨rfl, rfl, rfl⟩ := heq2
      norm_num

theorem parseTopPairs_field_cons (key tag : List Nat)
    (hkey : ∀ b ∈ key, ¬ b = 34 ∧ ¬ b = 92) (htag : ∀ b ∈ tag, ¬ b = 34 ∧ ¬ b = 92)
    (vb : List Nat) (v : JVal) (hv : ∀ l, parseVal (vb ++ l) = some (v, l))
    (l : List Nat) (ps : DData) (r : List Nat) (hrest : parseTopPairs l = some (ps, r)) :
    parseTopPairs
        (34 :: (key ++ 34 :: 58 :: 123 :: 34 :: (tag ++ 34 :: 58 :: (vb ++ 125 :: 44 :: l)))) =
      some ((key, [(tag, v)]) :: ps, r) := by
  have hk : parseJStr (key ++ 34 :: 58 :: 123 :: 34 :: (tag ++ 34 :: 58 :: (vb ++ 125 :: 44 :: l))) =
      some (key, 58 :: 123 :: 34 :: (tag ++ 34 :: 58 :: (vb ++ 125 :: 44 :: l))) :=
    parseJStr_safe key _ hkey
  have hp : parsePairs (34 :: (tag ++ 34 :: 58 :: (vb ++ 125 :: 44 :: l))) =
      some ([(tag, v)], 44 :: l) := parsePairs_one tag htag vb v hv (44 :: l)
  rw [parseTopPairs.eq_def]
  norm_num
  split
  · rename_i heq
    rw [hk] at heq
    cases heq
  · rename_i s2 heq
    rw [hk] at heq
    simp at heq
  · rename_i s2 c2 r22 heq
    rw [hk] at heq
    simp only [Option.some.injEq, Prod.mk.injEq, List.cons.injEq] at heq
    obtain ⟨rfl, rfl, rfl⟩ := heq
    norm_num
    split
    · rename_i heq2
      rw [hp] at heq2
      cases heq2
    · rename_i i2 heq2
      rw [hp] at heq2
      simp at heq2
    · rename_i i2 d2 r52 heq2
      rw [hp] at heq2
      simp only [Option.some.injEq, Prod.mk.injEq, List.cons.injEq] at heq2
      obtain ⟨rfl, rfl, rfl⟩ := heq2
      norm_num [hrest]

/-! The `Model` struct of cmd/dynamodb-marshal and its generated codec.
Field names `Bool`, `Int`, `String`, `Time` clash with Lean type names and
carry a prime. -/

structure Model where
  Bool' : Bool
  Byte : List Nat
  ByteSlice : List (List Nat)
  Int' : Int
  IntSlice : List Int
  String' : List Nat
  StringSlice : List (List Nat)
  Time' : Int
  deriving DecidableEq, Repr

/-- Bytes of an ASCII string literal. -/
def gostr (s : String) : List Nat := s.data.map Char.toNat

/-- The generated `Model.Encode`: the exact byte sequence written to the
buffer; the per-element loops are `encodeElems` over the per-element
encodings. -/
def Model.encode (m : Model) : List Nat :=
  gostr "\x7b\"Bool\":\x7b\"N\":\"" ++ (if m.Bool' then [49] else [48]) ++
  gostr "\"\x7d,\"Byte\":\x7b\"B\":\"" ++ base64Encode m.Byte ++
  gostr "\"\x7d,\"ByteSlice\":\x7b\"BS\":[" ++ encodeElems (m.ByteSlice.map base64Encode) ++
  gostr "]\x7d,\"Int\":\x7b\"N\":\"" ++ formatInt m.Int' ++
  gostr "\"\x7d,\"IntSlice\":\x7b\"NS\":[" ++ encodeElems (m.IntSlice.map formatInt) ++
  gostr "]\x7d,\"String\":\x7b\"S\":\"" ++ toJSON m.String' ++
  gostr "\"\x7d,\"StringSlice\":\x7b\"SS\":[" ++ encodeElems (m.StringSlice.map toJSON) ++
  gostr "]\x7d,\"Time\":\x7b\"N\":\"" ++ formatInt m.Time' ++
  gostr "\"\x7d\x7d"

/-- `data[k][t]` on the decoded item: a missing attribute gives the nil
inner map, whose lookup gives the nil interface value. -/
def dget (data : DData) (k t : List Nat) : Option JVal :=
  ((data.lookup k).getD []).lookup t

/-- The `val, ok := x.(string)` comma-ok assertion. -/
def asStr : Option JVal → Option (List Nat)
  | some (.str s) => some s
  | _ => none

/-- The `vals, ok := x.([]interface{})` comma-ok assertion. -/
def asArr : Option JVal → Option (List JVal)
  | some (.arr xs) => some xs
  | _ => none

/-- The bare `val := sval.(string)` assertions inside the slice loops: a
non-string element panics, modelled as `none`. -/
def asStrs : List JVal → Option (List (List Nat))
  | [] => some []
  | .str s :: t => (asStrs t).map (s :: ·)
  | .arr _ :: _ => none

def decodeBool (data : DData) (m : Model) : Model :=
  match asStr (dget data (gostr "Bool") (gostr "N")) with
  | some val =>
    if val = gostr "1" then { m with Bool' := true }
    else if val = gostr "0" then { m with Bool' := false }
    else m
  | none => m

def decodeByte (data : DData) (m : Model) : Model :=
  match asStr (dget data (gostr "Byte") (gostr "B")) with
  | some val => { m with Byte := base64Decode val }
  | none => m

def decodeByteSlice (data : DData) (m : Model) : Option Model :=
  match asArr (dget data (gostr "ByteSlice") (gostr "BS")) with
  | some vals =>
    match asStrs vals with
    | some strs => some { m with ByteSlice := m.ByteSlice ++ strs.map base64Decode }
    | none => none
  | none => some m

def decodeInt (data : DData) (m : Model) : Model :=
  match asStr (dget data (gostr "Int") (gostr "N")) with
  | some val => { m with Int' := goParseInt val }
  | none => m

def decodeIntSlice (data : DData) (m : Model) : Option Model :=
  match asArr (dget data (gostr "IntSlice") (gostr "NS")) with
  | some vals =>
    match asStrs vals with
    | some strs => some { m with IntSlice := m.IntSlice ++ strs.map goParseInt }
    | none => none
  | none => some m

def decodeString (data : DData) (m : Model) : Model :=
  match asStr (dget data (gostr "String") (gostr "S")) with
  | some val => { m with String' := val }
  | none => m

def decodeStringSlice (data : DData) (m : Model) : Option Model :=
  match asArr (dget data (gostr "StringSlice") (gostr "SS")) with
  | some vals =>
    match asStrs vals with
    | some strs => some { m with StringSlice := m.StringSlice ++ strs }
    | none => none
  | none => some m

def decodeTime (data : DData) (m : Model) : Model :=
  match asStr (dget data (gostr "Time") (gostr "N")) with
  | some val => { m with Time' := goParseInt val }
  | none => m

/-- The generated `Model.Decode`, field by field in source order; `none`
models the panic of a failed bare type assertion in a slice loop. -/
def Model.decode (data : DData) (m : Model) : Option Model :=
  (decodeByteSlice data (decodeByte data (decodeBool data m))).bind fun m1 =>
    (decodeIntSlice data (decodeInt data m1)).bind fun m2 =>
      (decodeStringSlice data (decodeString data m2)).map fun m3 =>
        decodeTime data m3

/-- The zero value of `Model`. -/
def Model.zero : Model :=
  { Bool' := false, Byte := [], ByteSlice := [], Int' := 0, IntSlice := [],
    String' := [], StringSlice := [], Time' := 0 }

/-- The item denoted by `Model.Encode`'s output: what `json.Unmarshal`
produces from those bytes (proved below as `parseItem_encode`). -/
def Model.itemView (m : Model) : DData :=
  [(gostr "Bool", [(gostr "N", JVal.str (if m.Bool' then [49] else [48]))]),
   (gostr "Byte", [(gostr "B", JVal.str (base64Encode m.Byte))]),
   (gostr "ByteSlice", [(gostr "BS", JVal.arr (m.ByteSlice.map (fun e => JVal.str (base64Encode e))))]),
   (gostr "Int", [(gostr "N", JVal.str (formatInt m.Int'))]),
   (gostr "IntSlice", [(gostr "NS", JVal.arr (m.IntSlice.map (fun i => JVal.str (formatInt i))))]),
   (gostr "String", [(gostr "S", JVal.str (sanitize m.String'))]),
   (gostr "StringSlice", [(gostr "SS", JVal.arr (m.StringSlice.map (fun s => JVal.str (sanitize s))))]),
   (gostr "Time", [(gostr "N", JVal.str (formatInt m.Time'))])]

theorem b64Char_safe (v : Nat) : ¬ b64Char v = 34 ∧ ¬ b64Char v = 92 := by
  unfold b64Char
  split_ifs <;> omega

theorem base64Encode_safe (s : List Nat) : ∀ b ∈ base64Encode s, ¬ b = 34 ∧ ¬ b = 92 := by
  induction s using base64Encode.induct with
  | case1 b0 b1 b2 rest ih =>
    rw [base64Encode]
    intro b hb
    simp only [List.mem_cons] at hb
    rcases hb with rfl | rfl | rfl | rfl | hb
    · exact b64Char_safe _
    · exact b64Char_safe _
    · exact b64Char_safe _
    · exact b64Char_safe _
    · exact ih b hb
  | case2 b0 b1 =>
    rw [base64Encode]
    intro b hb
    simp only [List.mem_cons] at hb
    rcases hb with rfl | rfl | rfl | rfl | hb
    · exact b64Char_safe _
    · exact b64Char_safe _
    · exact b64Char_safe _
    · omega
    · simp at hb
  | case3 b0 =>
    rw [base64Encode]
    intro b hb
    simp only [List.mem_cons] at hb
    rcases hb with rfl | rfl | rfl | rfl | hb
    · exact b64Char_safe _
    · exact b64Char_safe _
    · omega
    · omega
    · simp at hb
  | case4 =>
    rw [base64Encode]
    intro b hb
    simp at hb

theorem formatInt_safe (i : Int) : ∀ b ∈ formatInt i, ¬ b = 34 ∧ ¬ b = 92 := by
  rw [formatInt]
  split_ifs with hneg
  · intro b hb
    simp only [List.mem_cons] at hb
    rcases hb with rfl | hb
    · omega
    · have := natToDigits_digits (-i).toNat b hb
      omega
  · intro b hb
    have := natToDigits_digits i.toNat b hb
    omega
theorem parseItem_encode (m : Model) : parseItem m.encode = some m.itemView := by
  have hv1 := parseVal_str (if m.Bool' then [49] else [48]) (if m.Bool' then [49] else [48]) (fun l => parseJStr_safe _ l (by cases m.Bool' <;> decide))
  have hv2 := parseVal_str (base64Encode m.Byte) (base64Encode m.Byte) (fun l => parseJStr_safe _ l (base64Encode_safe m.Byte))
  have hv3 := parseVal_arr base64Encode base64Encode m.ByteSlice (fun e _ l => parseJStr_safe _ l (base64Encode_safe e))
  have hv4 := parseVal_str (formatInt m.Int') (formatInt m.Int') (fun l => parseJStr_safe _ l (formatInt_safe m.Int'))
  have hv5 := parseVal_arr formatInt formatInt m.IntSlice (fun i _ l => parseJStr_safe _ l (formatInt_safe i))
  have hv6 := parseVal_str (toJSON m.String') (sanitize m.String') (fun l => parseJStr_toJSON m.String' l)
  have hv7 := parseVal_arr toJSON sanitize m.StringSlice (fun s _ l => parseJStr_toJSON s l)
  have hv8 := parseVal_str (formatInt m.Time') (formatInt m.Time') (fun l => parseJStr_safe _ l (formatInt_safe m.Time'))
  have h8 : parseTopPairs (34 :: (gostr "Time" ++ 34 :: 58 :: 123 :: 34 :: (gostr "N" ++ 34 :: 58 :: ((34 :: (formatInt m.Time' ++ [34])) ++ 125 :: 125 :: [])))) = some ([(gostr "Time", [(gostr "N", JVal.str (formatInt m.Time'))])], []) :=
    parseTopPairs_field_last (gostr "Time") (gostr "N") (by decide) (by decide) _ _ hv8 []
  have h7 : parseTopPairs (34 :: (gostr "StringSlice" ++ 34 :: 58 :: 123 :: 34 :: (gostr "SS" ++ 34 :: 58 :: ((91 :: (encodeElems (m.StringSlice.map toJSON) ++ [93])) ++ 125 :: 44 :: (34 :: (gostr "Time" ++ 34 :: 58 :: 123 :: 34 :: (gostr "N" ++ 34 :: 58 :: ((34 :: (formatInt m.Time' ++ [34])) ++ 125 :: 125 :: [])))))))) = some ([(gostr "StringSlice", [(gostr "SS", JVal.arr (m.StringSlice.map (fun s => JVal.str (sanitize s))))]), (gostr "Time", [(gostr "N", JVal.str (formatInt m.Time'))])], []) :=
    parseTopPairs_field_cons (gostr "StringSlice") (gostr "SS") (by decide) (by decide) _ _ hv7 _ _ _ h8
  have h6 : parseTopPairs (34 :: (gostr "String" ++ 34 :: 58 :: 123 :: 34 :: (gostr "S" ++ 34 :: 58 :: ((34 :: (toJSON m.String' ++ [34])) ++ 125 :: 44 :: (34 :: (gostr "StringSlice" ++ 34 :: 58 :: 123 :: 34 :: (gostr "SS" ++ 34 :: 58 :: ((91 :: (encodeElems (m.StringSlice.map toJSON) ++ [93])) ++ 125 :: 44 :: (34 :: (gostr "Time" ++ 34 :: 58 :: 123 :: 34 :: (gostr "N" ++ 34 :: 58 :: ((34 :: (formatInt m.Time' ++ [34])) ++ 125 :: 125 :: [])))))))))))) = some ([(gostr "String", [(gostr "S", JVal.str (sanitize m.String'))]), (gostr "StringSlice", [(gostr "SS", JVal.arr (m.StringSlice.map (fun s => JVal.str (sanitize s))))]), (gostr "Time", [(gostr "N", JVal.str (formatInt m.Time'))])], []) :=
    parseTopPairs_field_cons (gostr "String") (gostr "S") (by decide) (by decide) _ _ hv6 _ _ _ h7
  have h5 : parseTopPairs (34 :: (gostr "IntSlice" ++ 34 :: 58 :: 123 :: 34 :: (gostr "NS" ++ 34 :: 58 :: ((91 :: (encodeElems (m.IntSlice.map formatInt) ++ [93])) ++ 125 :: 44 :: (34 :: (gostr "String" ++ 34 :: 58 :: 123 :: 34 :: (gostr "S" ++ 34 :: 58 :: ((34 :: (toJSON m.String' ++ [34])) ++ 125 :: 44 :: (34 :: (gostr "StringSlice" ++ 34 :: 58 :: 123 :: 34 :: (gostr "SS" ++ 34 :: 58 :: ((91 :: (encodeElems (m.StringSlice.map toJSON) ++ [93])) ++ 125 :: 44 :: (34 :: (gostr "Time" ++ 34 :: 58 :: 123 :: 34 :: (gostr "N" ++ 34 :: 58 :: ((34 :: (formatInt m.Time' ++ [34])) ++ 125 :: 125 :: [])))))))))))))))) = some ([(gostr "IntSlice", [(gostr "NS", JVal.arr (m.IntSlice.map (fun i => JVal.str (formatInt i))))]), (gostr "String", [(gostr "S", JVal.str (sanitize m.String'))]), (gostr "StringSlice", [(gostr "SS", JVal.arr (m.StringSlice.map (fun s => JVal.str (sanitize s))))]), (gostr "Time", [(gostr "N", JVal.str (formatInt m.Time'))])], []) :=
    parseTopPairs_field_cons (gostr "IntSlice") (gostr "NS") (by decide) (by decide) _ _ hv5 _ _ _ h6
  have h4 : parseTopPairs (34 :: (gostr "Int" ++ 34 :: 58 :: 123 :: 34 :: (gostr "N" ++ 34 :: 58 :: ((34 :: (formatInt m.Int' ++ [34])) ++ 125 :: 44 :: (34 :: (gostr "IntSlice" ++ 34 :: 58 :: 123 :: 34 :: (gostr "NS" ++ 34 :: 58 :: ((91 :: (encodeElems (m.IntSlice.map formatInt) ++ [93])) ++ 125 :: 44 :: (34 :: (gostr "String" ++ 34 :: 58 :: 123 :: 34 :: (gostr "S" ++ 34 :: 58 :: ((34 :: (toJSON m.String' ++ [34])) ++ 125 :: 44 :: (34 :: (gostr "StringSlice" ++ 34 :: 58 :: 123 :: 34 :: (gostr "SS" ++ 34 :: 58 :: ((91 :: (encodeElems (m.StringSlice.map toJSON) ++ [93])) ++ 125 :: 44 :: (34 :: (gostr "Time" ++ 34 :: 58 :: 123 :: 34 :: (gostr "N" ++ 34 :: 58 :: ((34 :: (formatInt m.Time' ++ [34])) ++ 125 :: 125 :: [])))))))))))))))))))) = some ([(gostr "Int", [(gostr "N", JVal.str (formatInt m.Int'))]), (gostr "IntSlice", [(gostr "NS", JVal.arr (m.IntSlice.map (fun i => JVal.str (formatInt i))))]), (gostr "String", [(gostr "S", JVal.str (sanitize m.String'))]), (gostr "StringSlice", [(gostr "SS", JVal.arr (m.StringSlice.map (fun s => JVal.str (sanitize s))))]), (gostr "Time", [(gostr "N", JVal.str (formatInt m.Time'))])], []) :=
    parseTopPairs_field_cons (gostr "Int") (gostr "N") (by decide) (by decide) _ _ hv4 _ _ _ h5
  have h3 : parseTopPairs (34 :: (gostr "ByteSlice" ++ 34 :: 58 :: 123 :: 34 :: (gostr "BS" ++ 34 :: 58 :: ((91 :: (encodeElems (m.ByteSlice.map base64Encode) ++ [93])) ++ 125 :: 44 :: (34 :: (gostr "Int" ++ 34 :: 58 :: 123 :: 34 :: (gostr "N" ++ 34 :: 58 :: ((34 :: (formatInt m.Int' ++ [34])) ++ 125 :: 44 :: (34 :: (gostr "IntSlice" ++ 34 :: 58 :: 123 :: 34 :: (gostr "NS" ++ 34 :: 58 :: ((91 :: (encodeElems (m.IntSlice.map formatInt) ++ [93])) ++ 125 :: 44 :: (34 :: (gostr "String" ++ 34 :: 58 :: 123 :: 34 :: (gostr "S" ++ 34 :: 58 :: ((34 :: (toJSON m.String' ++ [34])) ++ 125 :: 44 :: (34 :: (gostr "StringSlice" ++ 34 :: 58 :: 123 :: 34 :: (gostr "SS" ++ 34 :: 58 :: ((91 :: (encodeElems (m.StringSlice.map toJSON) ++ [93])) ++ 125 :: 44 :: (34 :: (gostr "Time" ++ 34 :: 58 :: 123 :: 34 :: (gostr "N" ++ 34 :: 58 :: ((34 :: (formatInt m.Time' ++ [34])) ++ 125 :: 125 :: [])))))))))))))))))))))))) = some ([(gostr "ByteSlice", [(gostr "BS", JVal.arr (m.ByteSlice.map (fun e => JVal.str (base64Encode e))))]), (gostr "Int", [(gostr "N", JVal.str (formatInt m.Int'))]), (gostr "IntSlice", [(gostr "NS", JVal.arr (m.IntSlice.map (fun i => JVal.str (formatInt i))))]), (gostr "String", [(gostr "S", JVal.str (sanitize m.String'))]), (gostr "StringSlice", [(gostr "SS", JVal.arr (m.StringSlice.map (fun s => JVal.str (sanitize s))))]), (gostr "Time", [(gostr "N", JVal.str (formatInt m.Time'))])], []) :=
    parseTopPairs_field_cons (gostr "ByteSlice") (gostr "BS") (by decide) (by decide) _ _ hv3 _ _ _ h4
  have h2 : parseTopPairs (34 :: (gostr "Byte" ++ 34 :: 58 :: 123 :: 34 :: (gostr "B" ++ 34 :: 58 :: ((34 :: (base64Encode m.Byte ++ [34])) ++ 125 :: 44 :: (34 :: (gostr "ByteSlice" ++ 34 :: 58 :: 123 :: 34 :: (gostr "BS" ++ 34 :: 58 :: ((91 :: (encodeElems (m.ByteSlice.map base64Encode) ++ [93])) ++ 125 :: 44 :: (34 :: (gostr "Int" ++ 34 :: 58 :: 123 :: 34 :: (gostr "N" ++ 34 :: 58 :: ((34 :: (formatInt m.Int' ++ [34])) ++ 125 :: 44 :: (34 :: (gostr "IntSlice" ++ 34 :: 58 :: 123 :: 34 :: (gostr "NS" ++ 34 :: 58 :: ((91 :: (encodeElems (m.IntSlice.map formatInt) ++ [93])) ++ 125 :: 44 :: (34 :: (gostr "String" ++ 34 :: 58 :: 123 :: 34 :: (gostr "S" ++ 34 :: 58 :: ((34 :: (toJSON m.String' ++ [34])) ++ 125 :: 44 :: (34 :: (gostr "StringSlice" ++ 34 :: 58 :: 123 :: 34 :: (gostr "SS" ++ 34 :: 58 :: ((91 :: (encodeElems (m.StringSlice.map toJSON) ++ [93])) ++ 125 :: 44 :: (34 :: (gostr "Time" ++ 34 :: 58 :: 123 :: 34 :: (gostr "N" ++ 34 :: 58 :: ((34 :: (formatInt m.Time' ++ [34])) ++ 125 :: 125 :: [])))))))))))))))))))))))))))) = some ([(gostr "Byte", [(gostr "B", JVal.str (base64Encode m.Byte))]), (gostr "ByteSlice", [(gostr "BS", JVal.arr (m.ByteSlice.map (fun e => JVal.str (base64Encode e))))]), (gostr "Int", [(gostr "N", JVal.str (formatInt m.Int'))]), (gostr "IntSlice", [(gostr "NS", JVal.arr (m.IntSlice.map (fun i => JVal.str (formatInt i))))]), (gostr "String", [(gostr "S", JVal.str (sanitize m.String'))]), (gostr "StringSlice", [(gostr "SS", JVal.arr (m.StringSlice.map (fun s => JVal.str (sanitize s))))]), (gostr "Time", [(gostr "N", JVal.str (formatInt m.Time'))])], []) :=
    parseTopPairs_field_cons (gostr "Byte") (gostr "B") (by decide) (by decide) _ _ hv2 _ _ _ h3
  have h1 : parseTopPairs (34 :: (gostr "Bool" ++ 34 :: 58 :: 123 :: 34 :: (gostr "N" ++ 34 :: 58 :: ((34 :: ((if m.Bool' then [49] else [48]) ++ [34])) ++ 125 :: 44 :: (34 :: (gostr "Byte" ++ 34 :: 58 :: 123 :: 34 :: (gostr "B" ++ 34 :: 58 :: ((34 :: (base64Encode m.Byte ++ [34])) ++ 125 :: 44 :: (34 :: (gostr "ByteSlice" ++ 34 :: 58 :: 123 :: 34 :: (gostr "BS" ++ 34 :: 58 :: ((91 :: (encodeElems (m.ByteSlice.map base64Encode) ++ [93])) ++ 125 :: 44 :: (34 :: (gostr "Int" ++ 34 :: 58 :: 123 :: 34 :: (gostr "N" ++ 34 :: 58 :: ((34 :: (formatInt m.Int' ++ [34])) ++ 125 :: 44 :: (34 :: (gostr "IntSlice" ++ 34 :: 58 :: 123 :: 34 :: (gostr "NS" ++ 34 :: 58 :: ((91 :: (encodeElems (m.IntSlice.map formatInt) ++ [93])) ++ 125 :: 44 :: (34 :: (gostr "String" ++ 34 :: 58 :: 123 :: 34 :: (gostr "S" ++ 34 :: 58 :: ((34 :: (toJSON m.String' ++ [34])) ++ 125 :: 44 :: (34 :: (gostr "StringSlice" ++ 34 :: 58 :: 123 :: 34 :: (gostr "SS" ++ 34 :: 58 :: ((91 :: (encodeElems (m.StringSlice.map toJSON) ++ [93])) ++ 125 :: 44 :: (34 :: (gostr "Time" ++ 34 :: 58 :: 123 :: 34 :: (gostr "N" ++ 34 :: 58 :: ((34 :: (formatInt m.Time' ++ [34])) ++ 125 :: 125 :: [])))))))))))))))))))))))))))))))) = some ([(gostr "Bool", [(gostr "N", JVal.str (if m.Bool' then [49] else [48]))]), (gostr "Byte", [(gostr "B", JVal.str (base64Encode m.Byte))]), (gostr "ByteSlice", [(gostr "BS", JVal.arr (m.ByteSlice.map (fun e => JVal.str (base64Encode e))))]), (gostr "Int", [(gostr "N", JVal.str (formatInt m.Int'))]), (gostr "IntSlice", [(gostr "NS", JVal.arr (m.IntSlice.map (fun i => JVal.str (formatInt i))))]), (gostr "String", [(gostr "S", JVal.str (sanitize m.String'))]), (gostr "StringSlice", [(gostr "SS", JVal.arr (m.StringSlice.map (fun s => JVal.str (sanitize s))))]), (gostr "Time", [(gostr "N", JVal.str (formatInt m.Time'))])], []) :=
    parseTopPairs_field_cons (gostr "Bool") (gostr "N") (by decide) (by decide) _ _ hv1 _ _ _ h2
  have henc : m.encode = 123 :: (34 :: (gostr "Bool" ++ 34 :: 58 :: 123 :: 34 :: (gostr "N" ++ 34 :: 58 :: ((34 :: ((if m.Bool' then [49] else [48]) ++ [34])) ++ 125 :: 44 :: (34 :: (gostr "Byte" ++ 34 :: 58 :: 123 :: 34 :: (gostr "B" ++ 34 :: 58 :: ((34 :: (base64Encode m.Byte ++ [34])) ++ 125 :: 44 :: (34 :: (gostr "ByteSlice" ++ 34 :: 58 :: 123 :: 34 :: (gostr "BS" ++ 34 :: 58 :: ((91 :: (encodeElems (m.ByteSlice.map base64Encode) ++ [93])) ++ 125 :: 44 :: (34 :: (gostr "Int" ++ 34 :: 58 :: 123 :: 34 :: (gostr "N" ++ 34 :: 58 :: ((34 :: (formatInt m.Int' ++ [34])) ++ 125 :: 44 :: (34 :: (gostr "IntSlice" ++ 34 :: 58 :: 123 :: 34 :: (gostr "NS" ++ 34 :: 58 :: ((91 :: (encodeElems (m.IntSlice.map formatInt) ++ [93])) ++ 125 :: 44 :: (34 :: (gostr "String" ++ 34 :: 58 :: 123 :: 34 :: (gostr "S" ++ 34 :: 58 :: ((34 :: (toJSON m.String' ++ [34])) ++ 125 :: 44 :: (34 :: (gostr "StringSlice" ++ 34 :: 58 :: 123 :: 34 :: (gostr "SS" ++ 34 :: 58 :: ((91 :: (encodeElems (m.StringSlice.map toJSON) ++ [93])) ++ 125 :: 44 :: (34 :: (gostr "Time" ++ 34 :: 58 :: 123 :: 34 :: (gostr "N" ++ 34 :: 58 :: ((34 :: (formatInt m.Time' ++ [34])) ++ 125 :: 125 :: [])))))))))))))))))))))))))))))))) := by
    simp only [Model.encode, gostr, List.cons_append, List.nil_append, List.append_assoc]
    norm_num
    simp [Char.toNat]
  rw [henc, parseItem, if_pos rfl, h1]
  rfl

theorem asStrs_map {α : Type} (f : α → List Nat) (xs : List α) :
    asStrs (xs.map (fun e => JVal.str (f e))) = some (xs.map f) := by
  induction xs with
  | nil => rfl
  | cons e t ih => simp [asStrs, ih]

theorem decode_itemView (m : Model) :
    Model.decode m.itemView Model.zero = some
      { Bool' := m.Bool',
        Byte := base64Decode (base64Encode m.Byte),
        ByteSlice := m.ByteSlice.map (fun e => base64Decode (base64Encode e)),
        Int' := goParseInt (formatInt m.Int'),
        IntSlice := m.IntSlice.map (fun i => goParseInt (formatInt i)),
        String' := sanitize m.String',
        StringSlice := m.StringSlice.map sanitize,
        Time' := goParseInt (formatInt m.Time') } := by
  obtain ⟨mb, mby, mbs, mi, mis, ms, mss, mt⟩ := m
  cases mb <;>
    simp +decide [Model.decode, Model.itemView, Model.zero, dget, List.lookup,
      decodeBool, decodeByte, decodeByteSlice, decodeInt, decodeIntSlice,
      decodeString, decodeStringSlice, decodeTime, asStr, asArr, asStrs_map,
      List.map_map, Function.comp_def]

/-- `Decode ∘ json.Unmarshal ∘ Encode` from the zero value. -/
def Model.roundTrip (m : Model) : Option Model :=
  match parseItem m.encode with
  | none => none
  | some data => Model.decode data Model.zero

theorem roundTrip_eq (m : Model) :
    m.roundTrip = some
      { Bool' := m.Bool',
        Byte := base64Decode (base64Encode m.Byte),
        ByteSlice := m.ByteSlice.map (fun e => base64Decode (base64Encode e)),
        Int' := goParseInt (formatInt m.Int'),
        IntSlice := m.IntSlice.map (fun i => goParseInt (formatInt i)),
        String' := sanitize m.String',
        StringSlice := m.StringSlice.map sanitize,
        Time' := goParseInt (formatInt m.Time') } := by
  rw [Model.roundTrip, parseItem_encode]
  exact decode_itemView m

theorem validUTF8_nil : validUTF8 [] = true := by rw [validUTF8]

theorem validUTF8_cons_ascii (b : Nat) (t : List Nat) (h : b < 0x80) :
    validUTF8 (b :: t) = validUTF8 t := by
  rw [validUTF8.eq_def]
  simp [h]

/-- C1 (amended): the codec round-trip law holds for every record whose
string fields are valid UTF-8 (and whose byte/int fields are in range,
which is automatic in Go): decoding the JSON item produced by encoding
`m` from a zero-valued record reproduces `m` exactly. -/
theorem claimC1_amended (m : Model)
    (hByte : ∀ b ∈ m.Byte, b < 256)
    (hBS : ∀ s ∈ m.ByteSlice, ∀ b ∈ s, b < 256)
    (hInt : -(2 ^ 63) ≤ m.Int' ∧ m.Int' ≤ 2 ^ 63 - 1)
    (hIS : ∀ i ∈ m.IntSlice, -(2 ^ 63) ≤ i ∧ i ≤ 2 ^ 63 - 1)
    (hStr : validUTF8 m.String' = true)
    (hSS : ∀ s ∈ m.StringSlice, validUTF8 s = true)
    (hTime : -(2 ^ 63) ≤ m.Time' ∧ m.Time' ≤ 2 ^ 63 - 1) :
    m.roundTrip = some m := by
  rw [roundTrip_eq]
  congr 1
  obtain ⟨mb, mby, mbs, mi, mis, ms, mss, mt⟩ := m
  simp only at hByte hBS hInt hIS hStr hSS hTime
  congr 1
  · exact base64_roundtrip mby hByte
  · rw [List.map_congr_left (fun e he => base64_roundtrip e (hBS e he))]
    exact List.map_id mbs
  · exact goParseInt_formatInt mi hInt.1 hInt.2
  · rw [List.map_congr_left (fun i hi => goParseInt_formatInt i (hIS i hi).1 (hIS i hi).2)]
    exact List.map_id mis
  · exact sanitize_valid ms hStr
  · rw [List.map_congr_left (fun s hs => sanitize_valid s (hSS s hs))]
    exact List.map_id mss
  · exact goParseInt_formatInt mt hTime.1 hTime.2

/-- C1 (counterexample): a record whose string field holds the invalid
UTF-8 byte `0xFF` does not round-trip: the encoder replaces the invalid
sequence with U+FFFD, so decoding yields the replacement bytes
`EF BF BD`, not the original string. -/
theorem claimC1_counterexample :
    Model.roundTrip { Model.zero with String' := [255] } =
      some { Model.zero with String' := [239, 191, 189] } ∧
    ¬ (Model.roundTrip { Model.zero with String' := [255] } =
        some { Model.zero with String' := [255] }) := by
  have h1 : goParseInt (formatInt 0) = 0 := goParseInt_formatInt 0 (by norm_num) (by norm_num)
  have h2 : sanitize ([255] : List Nat) = [239, 191, 189] :=
    sanitize_hi_nil 255 (by norm_num)
  have h3 : Model.roundTrip { Model.zero with String' := [255] } =
      some { Model.zero with String' := [239, 191, 189] } := by
    rw [roundTrip_eq]
    simp [Model.zero, h1, h2, sanitize_nil, base64Encode, base64Decode]
  refine ⟨h3, ?_⟩
  rw [h3]
  intro hco
  simp only [Option.some.injEq, Model.mk.injEq] at hco
  exact absurd hco.2.2.2.2.2.1 (by decide)

/-- C1 (witness): a concrete record exercising every field kind
round-trips exactly. -/
theorem claimC1_witness :
    Model.roundTrip
      { Bool' := true, Byte := [0, 255], ByteSlice := [[1, 2, 3]],
        Int' := -42, IntSlice := [7, -8], String' := [97, 60, 98],
        StringSlice := [[104, 105]], Time' := 1700000000000000000 } =
    some
      { Bool' := true, Byte := [0, 255], ByteSlice := [[1, 2, 3]],
        Int' := -42, IntSlice := [7, -8], String' := [97, 60, 98],
        StringSlice := [[104, 105]], Time' := 1700000000000000000 } := by
  refine claimC1_amended _ ?_ ?_ ?_ ?_ ?_ ?_ ?_
  · intro b hb; simp at hb; omega
  · intro s hs b hb; simp at hs; subst hs; simp at hb; omega
  · constructor <;> norm_num
  · intro i hi; simp at hi; rcases hi with h | h <;> subst h <;> constructor <;> norm_num
  · show validUTF8 [97, 60, 98] = true
    rw [validUTF8_cons_ascii 97 _ (by norm_num), validUTF8_cons_ascii 60 _ (by norm_num),
        validUTF8_cons_ascii 98 _ (by norm_num), validUTF8_nil]
  · intro s hs; simp at hs; subst hs
    rw [validUTF8_cons_ascii 104 _ (by norm_num), validUTF8_cons_ascii 105 _ (by norm_num),
        validUTF8_nil]
  · constructor <;> norm_num


theorem escByte_safe (b : Nat) (hb : b < 0x80) :
    ∀ x ∈ escByte b, 0x20 ≤ x ∧ x ≠ 60 ∧ x ≠ 62 ∧ x ≠ 38 := by
  intro x hx
  unfold escByte hexDig at hx
  have h16 : b / 16 < 10 := by omega
  have hm : b % 16 < 16 := by omega
  split_ifs at hx <;> simp at hx <;> rcases hx with h | h | h | h | h | h <;> omega

theorem toJSON_safe (s : List Nat) :
    ∀ x ∈ toJSON s, 0x20 ≤ x ∧ x ≠ 60 ∧ x ≠ 62 ∧ x ≠ 38 := by
  induction s using toJSON.induct with
  | case1 => simp [toJSON_nil]
  | case2 b t hlt ih =>
    rw [toJSON_ascii b t hlt]
    intro x hx
    rcases List.mem_append.1 hx with h | h
    · by_cases hs : asciiSafe b
      · rw [if_pos hs] at h
        simp at h
        subst h
        simp [asciiSafe] at hs
        omega
      · rw [if_neg hs] at h
        exact escByte_safe b hlt x h
    · exact ih x h
  | case3 b hlt =>
    rw [toJSON_hi_nil b hlt]
    intro x hx
    simp [replBytes] at hx
    omega
  | case4 b hlt b1 t hv ih =>
    rw [toJSON_valid2 b b1 t hlt hv]
    intro x hx
    simp only [List.mem_cons] at hx
    have h2 := valid2_bounds hv
    rcases hx with rfl | rfl | h
    · omega
    · omega
    · exact ih x h
  | case5 b hlt b1 hv ih =>
    rw [toJSON_invalid2_nil b b1 hlt hv]
    intro x hx
    rcases List.mem_append.1 hx with h | h
    · simp [replBytes] at h
      omega
    · exact ih x h
  | case6 b hlt b1 hv2 b2 t hv3 ih =>
    rw [toJSON_valid3 b b1 b2 t hlt hv2 hv3]
    intro x hx
    simp only [List.mem_cons] at hx
    have h3 := valid3_bounds hv3
    rcases hx with rfl | rfl | rfl | h
    · omega
    · omega
    · omega
    · exact ih x h
  | case7 b hlt b1 hv2 b2 hv3 ih =>
    rw [toJSON_invalid3_nil b b1 b2 hlt hv2 hv3]
    intro x hx
    rcases List.mem_append.1 hx with h | h
    · simp [replBytes] at h
      omega
    · exact ih x h
  | case8 b hlt b1 hv2 b2 hv3 b3 t hv4 ih =>
    rw [toJSON_valid4 b b1 b2 b3 t hlt hv2 hv3 hv4]
    intro x hx
    simp only [List.mem_cons] at hx
    have h4 := valid4_bounds hv4
    rcases hx with rfl | rfl | rfl | rfl | h
    · omega
    · omega
    · omega
    · omega
    · exact ih x h
  | case9 b hlt b1 hv2 b2 hv3 b3 t hv4 ih =>
    rw [toJSON_invalid4 b b1 b2 b3 t hlt hv2 hv3 hv4]
    intro x hx
    rcases List.mem_append.1 hx with h | h
    · simp [replBytes] at h
      omega
    · exact ih x h

theorem toJSON_escape_present (s : List Nat) (b : Nat)
    (hclass : b < 0x20 ∨ b = 60 ∨ b = 62 ∨ b = 38) (hb : b ∈ s) :
    ∃ pre post, toJSON s = pre ++ escByte b ++ post := by
  have hb128 : b < 0x80 := by omega
  revert hb
  induction s using toJSON.induct with
  | case1 => intro hb; simp at hb
  | case2 c t hlt ih =>
    intro hb
    rw [toJSON_ascii c t hlt]
    rcases List.mem_cons.1 hb with rfl | h
    · have hs : ¬ asciiSafe b = true := by
        simp [asciiSafe]
        omega
      refine ⟨[], toJSON t, ?_⟩
      rw [if_neg hs]
      simp
    · obtain ⟨pre, post, hp⟩ := ih h
      exact ⟨(if asciiSafe c then [c] else escByte c) ++ pre, post, by rw [hp]; simp⟩
  | case3 c hlt =>
    intro hb
    simp at hb
    omega
  | case4 c hlt b1 t hv ih =>
    intro hb
    have h2 := valid2_bounds hv
    rw [toJSON_valid2 c b1 t hlt hv]
    rcases List.mem_cons.1 hb with rfl | hb'
    · omega
    rcases List.mem_cons.1 hb' with rfl | h
    · omega
    obtain ⟨pre, post, hp⟩ := ih h
    exact ⟨c :: b1 :: pre, post, by rw [hp]; simp⟩
  | case5 c hlt b1 hv ih =>
    intro hb
    rw [toJSON_invalid2_nil c b1 hlt hv]
    rcases List.mem_cons.1 hb with rfl | hb'
    · omega
    obtain ⟨pre, post, hp⟩ := ih hb'
    exact ⟨replBytes ++ pre, post, by rw [hp]; simp⟩
  | case6 c hlt b1 hv2 b2 t hv3 ih =>
    intro hb
    have h3 := valid3_bounds hv3
    rw [toJSON_valid3 c b1 b2 t hlt hv2 hv3]
    rcases List.mem_cons.1 hb with rfl | hb'
    · omega
    rcases List.mem_cons.1 hb' with rfl | hb''
    · omega
    rcases List.mem_cons.1 hb'' with rfl | h
    · omega
    obtain ⟨pre, post, hp⟩ := ih h
    exact ⟨c :: b1 :: b2 :: pre, post, by rw [hp]; simp⟩
  | case7 c hlt b1 hv2 b2 hv3 ih =>
    intro hb
    rw [toJSON_invalid3_nil c b1 b2 hlt hv2 hv3]
    rcases List.mem_cons.1 hb with rfl | hb'
    · omega
    obtain ⟨pre, post, hp⟩ := ih hb'
    exact ⟨replBytes ++ pre, post, by rw [hp]; simp⟩
  | case8 c hlt b1 hv2 b2 hv3 b3 t hv4 ih =>
    intro hb
    have h4 := valid4_bounds hv4
    rw [toJSON_valid4 c b1 b2 b3 t hlt hv2 hv3 hv4]
    rcases List.mem_cons.1 hb with rfl | hb'
    · omega
    rcases List.mem_cons.1 hb' with rfl | hb''
    · omega
    rcases List.mem_cons.1 hb'' with rfl | hb'''
    · omega
    rcases List.mem_cons.1 hb''' with rfl | h
    · omega
    obtain ⟨pre, post, hp⟩ := ih h
    exact ⟨c :: b1 :: b2 :: b3 :: pre, post, by rw [hp]; simp⟩
  | case9 c hlt b1 hv2 b2 hv3 b3 t hv4 ih =>
    intro hb
    rw [toJSON_invalid4 c b1 b2 b3 t hlt hv2 hv3 hv4]
    rcases List.mem_cons.1 hb with rfl | hb'
    · omega
    obtain ⟨pre, post, hp⟩ := ih hb'
    exact ⟨replBytes ++ pre, post, by rw [hp]; simp⟩

/-- C6: `toJSON` escapes quote and backslash with backslash escapes,
newline as `\n`, carriage return as `\r`, every other control byte and
`<`, `>`, `&` as `\u00XX`; safe ASCII bytes and valid multibyte
sequences are copied verbatim; a lone invalid byte becomes the `\ufffd`
escape; and the output never contains a raw `<`, `>`, `&` or control
byte, while every such input byte leaves its escape in the output. -/
theorem claimC6 :
    (∀ t, toJSON (34 :: t) = 92 :: 34 :: toJSON t) ∧
    (∀ t, toJSON (92 :: t) = 92 :: 92 :: toJSON t) ∧
    (∀ t, toJSON (10 :: t) = 92 :: 110 :: toJSON t) ∧
    (∀ t, toJSON (13 :: t) = 92 :: 114 :: toJSON t) ∧
    (∀ b t, ((b < 0x20 ∧ b ≠ 10 ∧ b ≠ 13) ∨ b = 60 ∨ b = 62 ∨ b = 38) →
      toJSON (b :: t) =
        92 :: 117 :: 48 :: 48 :: hexDig (b / 16) :: hexDig (b % 16) :: toJSON t) ∧
    (∀ b t, b < 0x80 → asciiSafe b = true → toJSON (b :: t) = b :: toJSON t) ∧
    (∀ b b1 t, ¬ b < 0x80 → valid2 b b1 = true → toJSON (b :: b1 :: t) = b :: b1 :: toJSON t) ∧
    (∀ b, 0x80 ≤ b → toJSON [b] = replBytes) ∧
    (∀ s, ∀ x ∈ toJSON s, 0x20 ≤ x ∧ x ≠ 60 ∧ x ≠ 62 ∧ x ≠ 38) ∧
    (∀ s b, (b < 0x20 ∨ b = 60 ∨ b = 62 ∨ b = 38) → b ∈ s →
      ∃ pre post, toJSON s = pre ++ escByte b ++ post) := by
  refine ⟨?_, ?_, ?_, ?_, ?_, ?_, ?_, ?_, ?_, ?_⟩
  · intro t; rw [toJSON_ascii 34 t (by norm_num)]; rfl
  · intro t; rw [toJSON_ascii 92 t (by norm_num)]; rfl
  · intro t; rw [toJSON_ascii 10 t (by norm_num)]; rfl
  · intro t; rw [toJSON_ascii 13 t (by norm_num)]; rfl
  · intro b t hc
    have hlt : b < 0x80 := by omega
    have hsafe : asciiSafe b = false := by
      simp only [asciiSafe, decide_eq_false_iff_not]
      omega
    have hesc : escByte b = [92, 117, 48, 48, hexDig (b / 16), hexDig (b % 16)] := by
      rw [escByte]
      have h92 : ¬ (b = 92 ∨ b = 34) := by omega
      have h10 : ¬ b = 10 := by omega
      have h13 : ¬ b = 13 := by omega
      simp [h92, h10, h13]
    rw [toJSON_ascii b t hlt, hsafe, hesc]
    rfl
  · intro b t hlt hs; rw [toJSON_ascii b t hlt, hs]; rfl
  · exact fun b b1 t h hv => toJSON_valid2 b b1 t h hv
  · exact fun b h => toJSON_hi_nil b (by omega)
  · exact toJSON_safe
  · exact fun s b h hb => toJSON_escape_present s b h hb

/-- C6 (witness): concrete instances of the escaping equations and the
safety and escape-presence facts. -/
theorem claimC6_witness :
    toJSON [60] = [92, 117, 48, 48, 51, 99] ∧
    toJSON [104, 101, 108, 108, 111] = [104, 101, 108, 108, 111] ∧
    (∀ x ∈ toJSON [10, 60, 97, 255], 0x20 ≤ x ∧ x ≠ 60 ∧ x ≠ 62 ∧ x ≠ 38) ∧
    (∃ pre post, toJSON [97, 60, 98] = pre ++ escByte 60 ++ post) := by
  refine ⟨?_, ?_,
    claimC6.2.2.2.2.2.2.2.2.1 [10, 60, 97, 255],
    claimC6.2.2.2.2.2.2.2.2.2 [97, 60, 98] 60 (by norm_num) (by norm_num)⟩
  · rw [claimC6.2.2.2.2.1 60 [] (by norm_num), toJSON_nil]; decide
  · rw [claimC6.2.2.2.2.2.1 104 _ (by norm_num) (by decide),
        claimC6.2.2.2.2.2.1 101 _ (by norm_num) (by decide),
        claimC6.2.2.2.2.2.1 108 _ (by norm_num) (by decide),
        claimC6.2.2.2.2.2.1 108 _ (by norm_num) (by decide),
        claimC6.2.2.2.2.2.1 111 _ (by norm_num) (by decide), toJSON_nil]

/-! ## Shared concrete errors for witnesses and counterexamples -/

/-- The spec's scenario body
`{"__type":"...#ProvisionedThroughputExceededException","message":"x"}`,
as decoded by `json.Unmarshal` into a `map[string]string`. -/
def pteeErr : DDBError :=
  { body := some [("__type", "com.amazonaws.dynamodb.v20120810#ProvisionedThroughputExceededException"),
                  ("message", "x")]
    statusCode := 400 }

/-- A body whose `__type` starts with the `#` separator. -/
def hashErr : DDBError :=
  { body := some [("__type", "#InternalServerError"), ("message", "x")]
    statusCode := 500 }


/-! ## C7: error-kind extraction and retryability -/

theorem data_append (s t : String) : (s ++ t).data = s.data ++ t.data := rfl

theorem findIdx_hash_append (l post : List Char) (h : ∀ c ∈ l, c ≠ '#') :
    (l ++ '#' :: post).findIdx? (fun c => c = '#') = some l.length := by
  rw [List.findIdx?_append]
  have h1 : l.findIdx? (fun c => decide (c = '#')) = none := by
    rw [List.findIdx?_eq_none_iff]
    intro x hx
    simpa using h x hx
  rw [h1]
  simp [List.findIdx?_cons]

/-- C7 (counterexample): for the body `{"__type":"#InternalServerError","message":"x"}`
the separator *is* present, and the text after it is `InternalServerError`,
one of the retryable kinds — yet `Error.Retry` reports `false`, because the
code strips the kind only when the `#` sits at a *positive* byte index. -/
theorem claimC7_counterexample :
    specKind "#InternalServerError" = "InternalServerError" ∧
    hashErr.info.1 = "#InternalServerError" ∧
    hashErr.retry = false := by decide

/-- C7 (amended): `Error.Retry` returns true exactly when the extracted
kind is one of the three transient kinds, where the kind is the text after
the first `#` of `__type` when that `#` occurs at a positive index (a
leading `#` is not treated as a separator); the spec's scenario body
classifies as retryable with kind `ProvisionedThroughputExceededException`. -/
theorem claimC7_amended :
    (∀ e : DDBError, e.retry = true ↔
      (e.info.1 = "InternalServerError" ∨
       e.info.1 = "ProvisionedThroughputExceededException" ∨
       e.info.1 = "ServiceUnavailableException")) ∧
    (∀ pre post : String, pre ≠ "" → (∀ c ∈ pre.data, c ≠ '#') →
      (DDBError.info ⟨some [("__type", pre ++ "#" ++ post)], 400⟩).1 = post) ∧
    pteeErr.info = ("ProvisionedThroughputExceededException", "x") ∧
    pteeErr.retry = true := by
  refine ⟨?_, ?_, by decide, by decide⟩
  · intro e
    unfold DDBError.retry
    split_ifs with h1 h2 h3 <;> simp_all
  · intro pre post hpre hhash
    have hdata : (pre ++ "#" ++ post).data = pre.data ++ '#' :: post.data := by
      rw [data_append, data_append]
      simp [show ("#" : String).data = ['#'] from rfl]
    have hne : pre.data ≠ [] := by
      intro hnil
      exact hpre (by cases pre; simp_all)
    have hlen : 0 < pre.data.length := List.length_pos.mpr hne
    have hlook : ([("__type", pre ++ "#" ++ post)].lookup "__type") = some (pre ++ "#" ++ post) := by
      simp [List.lookup]
    simp only [DDBError.info, hlook, Option.getD_some]
    unfold infoType goIndexHash goDrop
    rw [hdata, findIdx_hash_append pre.data post.data hhash]
    have hpos : ((pre.data.length : Nat) : Int) > 0 := by exact_mod_cast hlen
    simp only [hpos, if_pos, Int.toNat_natCast]
    have hsplit : pre.data ++ '#' :: post.data = (pre.data ++ ['#']) ++ post.data := by simp
    have hl : pre.data.length + 1 = (pre.data ++ ['#']).length := by simp
    rw [hsplit, hl, List.drop_left]

/-- C7 (witness for the amended theorem): applying it at the concrete
body `{"__type":"ns#ServiceUnavailableException"}`. -/
theorem claimC7_witness :
    (DDBError.info ⟨some [("__type", "ns" ++ "#" ++ "ServiceUnavailableException")], 400⟩).1 =
      "ServiceUnavailableException" ∧
    DDBError.retry pteeErr = true := by
  refine ⟨claimC7_amended.2.1 "ns" "ServiceUnavailableException" (by decide) (by decide),
          claimC7_amended.2.2.2⟩

/-! ## C2: retry budget 3 -/

/-- C2 (counterexample): with `Retry = 3` and three retryable failures the
loop performs only **two** backoff sleeps, of 100ms and 200ms — not the
three sleeps of 50ms, 100ms, 200ms the claim states — because `attempt`
is incremented before `backoff(attempt)` is called and before the budget
comparison. -/
theorem claimC2_counterexample :
    callBytes 3 [.remote pteeErr, .remote pteeErr, .remote pteeErr] =
      some (.exhausted, [100, 200], 3) ∧
    [100, 200] ≠ [50, 100, 200] := by decide

/-- C2 (amended): with `Retry = 3` and every attempt failing with a
retryable remote error, `CallBytes` launches 3 requests, sleeps exactly
twice — 100ms then 200ms (`2^attempt * 50ms` for `attempt = 1, 2`) — and
returns `ErrRetryExhausted`. -/
theorem claimC2_amended (e : DDBError) (h : e.retry = true) (rest : List Outcome) :
    callBytes 3 (.remote e :: .remote e :: .remote e :: rest) =
      some (.exhausted, [100, 200], 3) := by
  simp [callBytes, callBytesCtx, ctxDone, h, backoffMs]

/-- C2 (witness): the amended theorem applied at the scenario error. -/
theorem claimC2_witness :
    callBytes 3 [.remote pteeErr, .remote pteeErr, .remote pteeErr] =
      some (.exhausted, [100, 200], 3) :=
  claimC2_amended pteeErr (by decide) []

/-! ## C3: `RetryForever = -1` -/

/-- C3 (the code's actual behaviour at the claimed property's input):
with `Retry = RetryForever = -1`, the *first* retryable failure already
satisfies `attempt >= c.Retry` (`1 ≥ -1`), so `CallBytes` returns
`ErrRetryExhausted` immediately with zero backoff sleeps — it never
retries, contradicting the field's own doc comment
("If -1, Client retries forever"). -/
theorem claimC3_bug (e : DDBError) (h : e.retry = true) (rest : List Outcome) :
    callBytes RetryForever (.remote e :: rest) = some (.exhausted, [], 1) := by
  simp [callBytes, callBytesCtx, ctxDone, h, RetryForever]

/-- C3 (witness): the bug theorem applied at the scenario error. -/
theorem claimC3_bug_witness :
    callBytes RetryForever [.remote pteeErr] = some (.exhausted, [], 1) :=
  claimC3_bug pteeErr (by decide) []

/-! ## C9: `RetryNever = 0` -/

/-- C9 (counterexample): with `Retry = 0` the first retryable remote error
is terminal with zero sleeps, but what is surfaced is `ErrRetryExhausted`,
not the retryable remote error itself. -/
theorem claimC9_counterexample :
    callBytes RetryNever [.remote pteeErr] = some (.exhausted, [], 1) ∧
    CallResult.exhausted ≠ CallResult.fatal pteeErr := by decide

/-- C9 (amended): with `Retry = 0` the first non-success outcome is
terminal with zero backoff sleeps regardless of classification; a
retryable remote error yields `ErrRetryExhausted` (not the underlying
error), a non-retryable one is returned unchanged, as is a
transport-level failure. -/
theorem claimC9_amended (e : DDBError) (b : List Nat) (rest : List Outcome) :
    callBytes RetryNever (.remote e :: rest) =
      some ((if e.retry then .exhausted else .fatal e), [], 1) ∧
    callBytes RetryNever (.transport :: rest) = some (.failed, [], 1) ∧
    callBytes RetryNever (.ok b :: rest) = some (.success b, [], 1) := by
  cases he : e.retry <;>
    simp [callBytes, callBytesCtx, ctxDone, he, RetryNever]

/-! ## C8: cancellation during backoff -/

/-- C8 (counterexample): the context is cancelled at the instant the
first backoff sleep starts (`cancelAt = some 1`).  The claim predicts an
immediate abort — an interrupted sleep and no further request (result
`(.cancelled, [], 1)`).  The code instead completes the 100ms sleep in
full and launches one more request (which then aborts with the
cancellation error): the result is `(.cancelled, [100], 2)`. -/
theorem claimC8_counterexample :
    callBytesCtx 5 (some 1) 0 0 0 [.remote pteeErr, .remote pteeErr] =
      some (.cancelled, [100], 2) ∧
    some ((CallResult.cancelled), ([] : List Nat), 1) ≠
      callBytesCtx 5 (some 1) 0 0 0 [.remote pteeErr, .remote pteeErr] := by decide

/-- C8 (amended): cancellation firing during a backoff sleep does abort
the retry loop with the cancellation error and no further outcome is
consumed — but the sleep is *not* interruptible: it completes in full
(`backoffMs 1 = 100` is recorded), and one further request is launched
before `Client.do` observes `ctx.Done()` and returns `ctx.Err()`. -/
theorem claimC8_amended (retry : Int) (e : DDBError) (rest : List Outcome)
    (h : e.retry = true) (h2 : 2 ≤ retry) :
    callBytesCtx retry (some 1) 0 0 0 (.remote e :: rest) =
      some (.cancelled, [backoffMs 1], 2) := by
  have hinner : callBytesCtx retry (some 1) 2 1 1 rest = some (.cancelled, [], 2) := by
    rw [callBytesCtx.eq_def]
    simp [ctxDone]
  have hle : ¬ (retry ≤ 1) := by omega
  rw [callBytesCtx.eq_def]
  simp [ctxDone, h, hle, hinner]

/-- C8 (witness): the amended theorem at `Retry = 5` and the scenario error. -/
theorem claimC8_witness :
    callBytesCtx 5 (some 1) 0 0 0 [.remote pteeErr] = some (.cancelled, [backoffMs 1], 2) :=
  claimC8_amended 5 pteeErr [] (by decide) (by norm_num)

/-! ## C4: the stored credential key material -/

/-- C4 (counterexample): the key material stored by `Auth` is not a
one-way derivation — it is the fixed version prefix `"AWS4"` concatenated
with the raw shared secret, from which the secret is recovered by
dropping the 4-character prefix. -/
theorem claimC4_counterexample :
    (Auth "AKID" "topsecret").secretKey = "AWS4topsecret".data ∧
    ((Auth "AKID" "topsecret").secretKey).drop 4 = "topsecret".data := by decide

/-- C4 (amended): `Auth` stores, once at construction, the fixed version
prefix `"AWS4"` prepended to the raw shared secret (the raw secret is
recoverable from the stored material); the one-way keyed-hash derivation
happens per request in the signing chain, not at construction. -/
theorem claimC4_amended (a s : String) :
    (Auth a s).accessKey = a ∧
    (Auth a s).secretKey = "AWS4".data ++ s.data ∧
    ((Auth a s).secretKey).drop 4 = s.data :=
  ⟨rfl, rfl, rfl⟩

/-! ## C5: the generator's overwrite behaviour -/

/-- C5 (the code's behaviour at the claimed property's input): when the
generated output file exists and `--force` is absent, `parseFile` logs
the "already exists! please specify --force to overwrite" warning — and
then creates and writes the file anyway (the guard has no early return),
contradicting its own log message. -/
theorem claimC5_bug :
    parseFile true false =
      [.logParsing, .logAlreadyExists, .logWriting, .createFile, .writeGenerated] ∧
    FileAction.writeGenerated ∈ parseFile true false := by decide

/-! ## C10: `Client.Table` always allocates -/

/-- C10: the package-level `tables` map is never written, so the lookup
always misses, `Client.Table` returns a freshly allocated
`Table{client: c, name: name}`, and two calls with the same name return
distinct allocations with identical contents. -/
theorem claimC10_table (c : Nat) (name : String) (ctr : Nat) :
    tables.lookup name = none ∧
    clientTable c name ctr = ((ctr, ⟨c, name⟩), ctr + 1) ∧
    (clientTable c name ctr).1.1 ≠
      (clientTable c name (clientTable c name ctr).2).1.1 ∧
    (clientTable c name ctr).1.2 =
      (clientTable c name (clientTable c name ctr).2).1.2 := by
  refine ⟨rfl, rfl, ?_, rfl⟩
  simp [clientTable, tables]
